import Mathlib

/-!
# Verification development for `blazehu/workwechat` (`work.go`)

The client is a thin layer over three Go standard-library facilities: `strings.TrimSpace`,
`encoding/json` and `net/http`.  The embedding below follows `work.go` function by function
(`GetAPI`, `request`, `ParseRespData`, `AccessToken`, `GetUser`, `Message`) and models the
library behaviour those functions observe.

Modelling conventions

* A Go `string` and a Go `[]byte` are both modelled by a Lean `String`, a sequence of Unicode
  scalar values, that is: well-formed UTF-8 text.  The conversions `string(b)` and `[]byte(s)`
  are the identity.
* A Go `int` is 64 bits wide; struct fields of type `int` hold a Lean `Int` that the decoder
  keeps inside the `int64` range.
* A Go function returning `(T, error)` returns a pair `T × Option GoError`; where every error
  path of the source returns `nil` for the value the model uses `Except GoError T`.
* A `float64` is only ever compared with zero.  Whether a number literal overflows the
  `float64` range or rounds to zero is computed exactly, in integer arithmetic; a value that
  is not zero is kept as the decimal it was read from.
* The HTTP stack from `http.NewRequest` to `ioutil.ReadAll` is a parameter, `Transport`:
  the three places where `request` can fail before it looks at the status code all return
  `nil, err` unchanged, so they are one outcome of the transport.
-/

namespace Wechat

/-! ## Go errors -/

/-- Go `error` value, identified by its message. -/
structure GoError where
  msg : String
deriving DecidableEq

/-! ## `encoding/json`: syntax -/

/-- JSON document as the scanner of `encoding/json` delimits it.  A number keeps its literal
text: the decoder hands that text to `strconv.ParseFloat` or `strconv.ParseInt` depending on
the type it decodes into. -/
inductive Json where
  | null
  | bool (b : Bool)
  | num (lit : String)
  | str (s : String)
  | arr (items : List Json)
  | obj (fields : List (String × Json))

/-- Lexical items of a JSON text. -/
inductive Token where
  | beginObj
  | endObj
  | beginArr
  | endArr
  | colon
  | comma
  | scalar (j : Json)

/-- Position of the scanner inside a number literal (`state0`, `state1`, `stateDot`, ... of
`scanner.go`). -/
inductive NumState where
  | neg
  | zero
  | int
  | dot
  | frac
  | e
  | esign
  | exp
deriving DecidableEq

/-- State of the scanner between and inside lexical items.  Inside a string `acc` holds the
unquoted characters read so far, newest first, and `pend` a high surrogate written as
`\uXXXX` that still waits for its low half. -/
inductive LexState where
  | start
  | inStr (acc : List Char) (pend : Option Nat)
  | inStrEsc (acc : List Char) (pend : Option Nat)
  | inStrU (acc : List Char) (pend : Option Nat) (count : Nat) (val : Nat)
  | inNum (acc : List Char) (st : NumState)
  | inWord (rest : List Char) (val : Json)

/-- The replacement character U+FFFD (`unicode.ReplacementChar`). -/
def replacementChar : Char := Char.ofNat 0xFFFD

/-- Value of a hexadecimal digit, either case. -/
def hexVal (c : Char) : Option Nat :=
  if '0' ≤ c ∧ c ≤ '9' then some (c.toNat - 48)
  else if 'a' ≤ c ∧ c ≤ 'f' then some (c.toNat - 87)
  else if 'A' ≤ c ∧ c ≤ 'F' then some (c.toNat - 55)
  else none

/-- A high surrogate that found no low half becomes U+FFFD. -/
def flushPend (pend : Option Nat) (acc : List Char) : List Char :=
  match pend with
  | some _ => replacementChar :: acc
  | none => acc

/-- The character a single-letter escape stands for (`unquoteBytes`). -/
def escChar (c : Char) : Option Char :=
  if c = '"' then some '"'
  else if c = '\\' then some '\\'
  else if c = '/' then some '/'
  else if c = 'b' then some (Char.ofNat 8)
  else if c = 'f' then some (Char.ofNat 12)
  else if c = 'n' then some '\n'
  else if c = 'r' then some '\r'
  else if c = 't' then some '\t'
  else none

/-- A `\uXXXX` escape with value `r` read while no high surrogate is pending. -/
def freshUnit (acc : List Char) (r : Nat) : LexState :=
  if 0xD800 ≤ r ∧ r < 0xDC00 then .inStr acc (some r)
  else if 0xDC00 ≤ r ∧ r < 0xE000 then .inStr (replacementChar :: acc) none
  else .inStr (Char.ofNat r :: acc) none

/-- A complete `\uXXXX` escape with value `r` (`utf16.DecodeRune` on a pending high half). -/
def endUnit (acc : List Char) (pend : Option Nat) (r : Nat) : LexState :=
  match pend with
  | some hi =>
    if 0xDC00 ≤ r ∧ r < 0xE000 then
      .inStr (Char.ofNat (0x10000 + (hi - 0xD800) * 0x400 + (r - 0xDC00)) :: acc) none
    else freshUnit (replacementChar :: acc) r
  | none => freshUnit acc r

/-- JSON insignificant whitespace (`isSpace` of `scanner.go`). -/
def isJsonSpace (c : Char) : Bool :=
  c = ' ' || c = '\t' || c = '\r' || c = '\n'

/-- Decimal digit. -/
def isDigit (c : Char) : Bool :=
  decide ('0' ≤ c ∧ c ≤ '9')

/-- One scanner step taken between lexical items (`stateBeginValue` and the punctuation
cases of `stateEndValue`). -/
def lexStart (toks : List Token) (c : Char) : Option (LexState × List Token) :=
  if isJsonSpace c then some (.start, toks)
  else if c = '{' then some (.start, .beginObj :: toks)
  else if c = '}' then some (.start, .endObj :: toks)
  else if c = '[' then some (.start, .beginArr :: toks)
  else if c = ']' then some (.start, .endArr :: toks)
  else if c = ':' then some (.start, .colon :: toks)
  else if c = ',' then some (.start, .comma :: toks)
  else if c = '"' then some (.inStr [] none, toks)
  else if c = '-' then some (.inNum [c] .neg, toks)
  else if c = '0' then some (.inNum [c] .zero, toks)
  else if isDigit c then some (.inNum [c] .int, toks)
  else if c = 't' then some (.inWord ['r', 'u', 'e'] (.bool true), toks)
  else if c = 'f' then some (.inWord ['a', 'l', 's', 'e'] (.bool false), toks)
  else if c = 'n' then some (.inWord ['u', 'l', 'l'] .null, toks)
  else none

/-- The number literal read so far is complete: emit it and scan `c` afresh. -/
def lexEndNum (acc : List Char) (toks : List Token) (c : Char) :
    Option (LexState × List Token) :=
  lexStart (.scalar (.num (String.mk acc.reverse)) :: toks) c

/-- One scanner step inside a number literal. -/
def lexNum (acc : List Char) (st : NumState) (toks : List Token) (c : Char) :
    Option (LexState × List Token) :=
  match st with
  | .neg =>
    if c = '0' then some (.inNum (c :: acc) .zero, toks)
    else if isDigit c then some (.inNum (c :: acc) .int, toks)
    else none
  | .zero =>
    if c = '.' then some (.inNum (c :: acc) .dot, toks)
    else if c = 'e' ∨ c = 'E' then some (.inNum (c :: acc) .e, toks)
    else lexEndNum acc toks c
  | .int =>
    if isDigit c then some (.inNum (c :: acc) .int, toks)
    else if c = '.' then some (.inNum (c :: acc) .dot, toks)
    else if c = 'e' ∨ c = 'E' then some (.inNum (c :: acc) .e, toks)
    else lexEndNum acc toks c
  | .dot =>
    if isDigit c then some (.inNum (c :: acc) .frac, toks) else none
  | .frac =>
    if isDigit c then some (.inNum (c :: acc) .frac, toks)
    else if c = 'e' ∨ c = 'E' then some (.inNum (c :: acc) .e, toks)
    else lexEndNum acc toks c
  | .e =>
    if c = '+' ∨ c = '-' then some (.inNum (c :: acc) .esign, toks)
    else if isDigit c then some (.inNum (c :: acc) .exp, toks)
    else none
  | .esign =>
    if isDigit c then some (.inNum (c :: acc) .exp, toks) else none
  | .exp =>
    if isDigit c then some (.inNum (c :: acc) .exp, toks)
    else lexEndNum acc toks c

/-- One step of the scanner. -/
def lexStep (s : LexState) (toks : List Token) (c : Char) : Option (LexState × List Token) :=
  match s with
  | .start => lexStart toks c
  | .inStr acc pend =>
    if c = '"' then some (.start, .scalar (.str (String.mk (flushPend pend acc).reverse)) :: toks)
    else if c = '\\' then some (.inStrEsc acc pend, toks)
    else if c.toNat < 0x20 then none
    else some (.inStr (c :: flushPend pend acc) none, toks)
  | .inStrEsc acc pend =>
    if c = 'u' then some (.inStrU acc pend 0 0, toks)
    else
      match escChar c with
      | some x => some (.inStr (x :: flushPend pend acc) none, toks)
      | none => none
  | .inStrU acc pend count val =>
    match hexVal c with
    | none => none
    | some d =>
      if count = 3 then some (endUnit acc pend (val * 16 + d), toks)
      else some (.inStrU acc pend (count + 1) (val * 16 + d), toks)
  | .inNum acc st => lexNum acc st toks c
  | .inWord rest val =>
    match rest with
    | [] => none
    | x :: rest' =>
      if c = x then
        (if rest'.isEmpty then some (.start, .scalar val :: toks) else some (.inWord rest' val, toks))
      else none

/-- Run the scanner over a text. -/
def lexRun : LexState → List Token → List Char → Option (LexState × List Token)
  | s, toks, [] => some (s, toks)
  | s, toks, c :: cs =>
    match lexStep s toks c with
    | none => none
    | some (s', toks') => lexRun s' toks' cs

/-- End of input (`scanner.eof`): only a number literal may be cut off by it. -/
def lexFinish (s : LexState) (toks : List Token) : Option (List Token) :=
  match s with
  | .start => some toks
  | .inNum acc st =>
    if st = .zero ∨ st = .int ∨ st = .frac ∨ st = .exp then
      some (.scalar (.num (String.mk acc.reverse)) :: toks)
    else none
  | _ => none

/-- The lexical items of a text, in order, or `none` on a lexical error. -/
def lex (cs : List Char) : Option (List Token) :=
  match lexRun .start [] cs with
  | none => none
  | some (s, toks) =>
    match lexFinish s toks with
    | none => none
    | some toks' => some toks'.reverse

/-- An array or object under construction (`parseState` of the scanner, with the values
collected so far, newest first). -/
inductive Frame where
  | arr (items : List Json)
  | obj (fields : List (String × Json)) (key : Option String)

/-- What the grammar allows next. -/
inductive Mode where
  | value
  | valueOrEnd
  | keyOrEnd
  | key
  | colon
  | afterValue
  | done (j : Json)

/-- Nesting limit of the scanner (`maxNestingDepth`). -/
def maxNestingDepth : Nat := 10000

/-- A value is complete: attach it to the innermost open array or object. -/
def complete (v : Json) (stack : List Frame) : Option (List Frame × Mode) :=
  match stack with
  | [] => some ([], .done v)
  | .arr items :: rest => some (.arr (v :: items) :: rest, .afterValue)
  | .obj fields (some k) :: rest => some (.obj ((k, v) :: fields) none :: rest, .afterValue)
  | .obj _ none :: _ => none

/-- Open an array or object, within the nesting limit. -/
def push (f : Frame) (m : Mode) (stack : List Frame) : Option (List Frame × Mode) :=
  if stack.length + 1 > maxNestingDepth then none else some (f :: stack, m)

/-- A token where a value may start. -/
def beginValue (stack : List Frame) (t : Token) : Option (List Frame × Mode) :=
  match t with
  | .scalar v => complete v stack
  | .beginArr => push (.arr []) .valueOrEnd stack
  | .beginObj => push (.obj [] none) .keyOrEnd stack
  | _ => none

/-- A token where an object key is due. -/
def beginKey (stack : List Frame) (t : Token) : Option (List Frame × Mode) :=
  match t, stack with
  | .scalar (.str k), .obj fields none :: rest => some (.obj fields (some k) :: rest, .colon)
  | _, _ => none

/-- Close the innermost array or object. -/
def closeFrame (stack : List Frame) (t : Token) : Option (List Frame × Mode) :=
  match t, stack with
  | .endArr, .arr items :: rest => complete (.arr items.reverse) rest
  | .endObj, .obj fields none :: rest => complete (.obj fields.reverse) rest
  | _, _ => none

/-- One step of the grammar on a token. -/
def parseStep (stack : List Frame) (m : Mode) (t : Token) : Option (List Frame × Mode) :=
  match m with
  | .value => beginValue stack t
  | .valueOrEnd =>
    match t with
    | .endArr => closeFrame stack t
    | _ => beginValue stack t
  | .keyOrEnd =>
    match t with
    | .endObj => closeFrame stack t
    | _ => beginKey stack t
  | .key => beginKey stack t
  | .colon =>
    match t with
    | .colon => some (stack, .value)
    | _ => none
  | .afterValue =>
    match t, stack with
    | .comma, .arr _ :: _ => some (stack, .value)
    | .comma, .obj _ none :: _ => some (stack, .key)
    | .endArr, _ => closeFrame stack t
    | .endObj, _ => closeFrame stack t
    | _, _ => none
  | .done _ => none

/-- Run the grammar over the tokens of a text. -/
def parseRun : List Frame → Mode → List Token → Option Json
  | _, .done j, [] => some j
  | _, _, [] => none
  | stack, m, t :: ts =>
    match parseStep stack m t with
    | none => none
    | some (stack', m') => parseRun stack' m' ts

/-- The document a text denotes, or `none` where `json.Unmarshal` reports a `SyntaxError`
(`checkValid`). -/
def parseJson (data : String) : Option Json :=
  match lex data.toList with
  | none => none
  | some toks => parseRun [] .value toks

/-! ## `strconv`: what the decoder asks of a number literal -/

/-- Value of a run of decimal digits. -/
def digitsVal (ds : List Char) : Nat :=
  ds.foldl (fun n c => n * 10 + (c.toNat - 48)) 0

/-- Two to the 63rd, the magnitude bound of `int64`. -/
def int64Bound : Nat := 9223372036854775808

/-- Drop one leading sign and report whether it was a minus. -/
def splitSign (cs : List Char) : Bool × List Char :=
  match cs with
  | '-' :: rest => (true, rest)
  | '+' :: rest => (false, rest)
  | _ => (false, cs)

/-- Result of `strconv.ParseInt(lit, 10, 64)`: `none` for a syntax or range error. -/
def parseInt (lit : String) : Option Int :=
  let (neg, ds) := splitSign lit.toList
  if ds.isEmpty || !ds.all isDigit then none
  else if neg then
    (if digitsVal ds ≤ int64Bound then some (-(digitsVal ds : Int)) else none)
  else
    (if digitsVal ds < int64Bound then some (digitsVal ds : Int) else none)

/-- A decimal `± mant × 10 ^ exp`. -/
structure Decimal where
  neg : Bool
  mant : Nat
  exp : Int
deriving DecidableEq

/-- Value of the digits of an exponent as `readFloat` accumulates them: a digit is taken in
only while the value is still below 10000. -/
def expVal (ds : List Char) : Nat :=
  ds.foldl (fun e c => if e < 10000 then e * 10 + (c.toNat - 48) else e) 0

/-- The letter that introduces the exponent of a number literal. -/
def isExpMark (c : Char) : Bool :=
  c = 'e' || c = 'E'

/-- The decimal a JSON number literal denotes (`readFloat` of `strconv`). -/
def readFloat (lit : String) : Decimal :=
  let (neg, body) := splitSign lit.toList
  let mantText := body.takeWhile (fun c => !isExpMark c)
  let expText := (body.dropWhile (fun c => !isExpMark c)).drop 1
  let intDs := mantText.takeWhile isDigit
  let fracDs := (mantText.dropWhile isDigit).drop 1
  let (eneg, eds) := splitSign expText
  { neg := neg
    mant := digitsVal (intDs ++ fracDs)
    exp := (if eneg then -(expVal eds : Int) else (expVal eds : Int)) - (fracDs.length : Int) }

/-- The decimal is at least `2^1024 - 2^970`, halfway between the largest finite `float64`
and `2^1024`: rounding to nearest-even overflows and `strconv.ParseFloat` reports
`ErrRange`. -/
def Decimal.overflows (d : Decimal) : Bool :=
  if 0 ≤ d.exp then decide (2 ^ 1024 - 2 ^ 970 ≤ d.mant * 10 ^ d.exp.toNat)
  else decide ((2 ^ 1024 - 2 ^ 970) * 10 ^ (-d.exp).toNat ≤ d.mant)

/-- The decimal is at most `2^-1075`, half the smallest subnormal `float64`: rounding to
nearest-even gives zero. -/
def Decimal.roundsToZero (d : Decimal) : Bool :=
  d.mant = 0 || (decide (d.exp < 0) && decide (d.mant * 2 ^ 1075 ≤ 10 ^ (-d.exp).toNat))

/-- A `float64` as far as this package observes one: it only ever compares it with zero.
A value that is not zero is kept as the decimal it was read from, not rounded to 53 bits. -/
inductive Float64 where
  | zero (neg : Bool)
  | nonzero (d : Decimal)
deriving DecidableEq

/-- Go comparison `x == 0.0` on `float64`. -/
def Float64.isZero : Float64 → Bool
  | .zero _ => true
  | .nonzero _ => false

/-- Result of `strconv.ParseFloat(lit, 64)`: `none` for a range error. -/
def parseFloat (lit : String) : Option Float64 :=
  let d := readFloat lit
  if d.overflows then none
  else if d.roundsToZero then some (.zero d.neg)
  else some (.nonzero d)

/-! ## `encoding/json`: decoding into `interface{}` -/

/-- Dynamic value of a Go `interface{}`.  Decoding JSON produces `nil`, `bool`, `float64`,
`string`, `[]interface{}` and `map[string]interface{}`; `int` is there because
`ParseRespData` has a case for it. -/
inductive GoValue where
  | nil
  | bool (b : Bool)
  | float64 (x : Float64)
  | int (n : Int)
  | string (s : String)
  | slice (items : List GoValue)
  | map (entries : List (String × GoValue))

/-- Go `map[string]interface{}`: an association list with one entry a key. -/
abbrev GoMap := List (String × GoValue)

/-- Go map index expression `v, ok := m[k]`. -/
def GoMap.get (m : GoMap) (k : String) : Option GoValue :=
  m.lookup k

/-- Whether the map has the key. -/
def GoMap.has (m : GoMap) (k : String) : Bool :=
  (m.lookup k).isSome

mutual
/-- The `interface{}` value of a document (`valueInterface`).  A number out of the `float64`
range leaves `nil` behind and is reported through `Json.numbersOk`. -/
def Json.toInterface : Json → GoValue
  | .null => .nil
  | .bool b => .bool b
  | .num lit =>
    match parseFloat lit with
    | some x => .float64 x
    | none => .nil
  | .str s => .string s
  | .arr items => .slice (Json.toInterfaces items)
  | .obj fields => .map (Json.toInterfaceMap fields)
/-- Element-wise `Json.toInterface`. -/
def Json.toInterfaces : List Json → List GoValue
  | [] => []
  | j :: js => Json.toInterface j :: Json.toInterfaces js
/-- The map of an object (`objectInterface`): of two fields with one key the later one
stays. -/
def Json.toInterfaceMap : List (String × Json) → GoMap
  | [] => []
  | (k, j) :: rest =>
    if GoMap.has (Json.toInterfaceMap rest) k then Json.toInterfaceMap rest
    else (k, Json.toInterface j) :: Json.toInterfaceMap rest
end

mutual
/-- No number literal of the document is out of the `float64` range (`convertNumber` saves
an `UnmarshalTypeError` for one that is). -/
def Json.numbersOk : Json → Bool
  | .null => true
  | .bool _ => true
  | .num lit => (parseFloat lit).isSome
  | .str _ => true
  | .arr items => Json.numbersOkList items
  | .obj fields => Json.numbersOkFields fields
/-- Element-wise `Json.numbersOk`. -/
def Json.numbersOkList : List Json → Bool
  | [] => true
  | j :: js => Json.numbersOk j && Json.numbersOkList js
/-- Field-wise `Json.numbersOk`. -/
def Json.numbersOkFields : List (String × Json) → Bool
  | [] => true
  | (_, j) :: rest => Json.numbersOk j && Json.numbersOkFields rest
end

/-- Error of `json.Unmarshal` for text that is not JSON.  The package never looks at the
message of a decoding error. -/
def syntaxError : GoError := ⟨"json: syntax error"⟩

/-- Error of `json.Unmarshal` for a value that does not fit the Go type it is decoded into
(`UnmarshalTypeError`). -/
def typeError : GoError := ⟨"json: cannot unmarshal value into Go value"⟩

/-- Outcome of `json.Unmarshal(data, &m)` for `m` of type `map[string]interface{}`: the error,
or the map (`none` is the `nil` map a JSON `null` leaves). -/
def unmarshalMap (data : String) : Except GoError (Option GoMap) :=
  match parseJson data with
  | none => .error syntaxError
  | some (.obj fields) =>
    if Json.numbersOkFields fields then .ok (some (Json.toInterfaceMap fields))
    else .error typeError
  | some .null => .ok none
  | some _ => .error typeError

/-! ## `encoding/json`: decoding into a struct -/

/-- Case folding of field-name matching, restricted to the fold orbits that contain an ASCII
letter (the field names of this package are ASCII): lower case to upper case, U+017F to `S`,
U+212A to `K`. -/
def foldChar (c : Char) : Char :=
  if 'a' ≤ c ∧ c ≤ 'z' then Char.ofNat (c.toNat - 32)
  else if c.toNat = 0x17F then 'S'
  else if c.toNat = 0x212A then 'K'
  else c

/-- Folded form of a key. -/
def foldName (s : String) : List Char :=
  s.toList.map foldChar

/-- The struct field an object key selects: the one of that exact name, else the first whose
name matches it under case folding. -/
def findField (names : List String) (key : String) : Option String :=
  match names.find? (fun n => n = key) with
  | some n => some n
  | none => names.find? (fun n => foldName n = foldName key)

/-- Decode a value into a field of type `int`: the field afterwards, and whether an
`UnmarshalTypeError` was saved.  JSON `null` leaves the field alone. -/
def storeInt (v : Json) (cur : Int) : Int × Bool :=
  match v with
  | .null => (cur, false)
  | .num lit =>
    match parseInt lit with
    | some n => (n, false)
    | none => (cur, true)
  | _ => (cur, true)

/-- Decode a value into a field of type `string`. -/
def storeString (v : Json) (cur : String) : String × Bool :=
  match v with
  | .null => (cur, false)
  | .str s => (s, false)
  | _ => (cur, true)

/-- Decode the fields of an object into a struct, in the order of the text (`object` of
`decode.go`): a key that selects no field is skipped, a value of the wrong type is skipped
after saving the error, and decoding goes on. -/
def decodeFields {α : Type} (names : List String) (set : α → String → Json → α × Bool) :
    List (String × Json) → α → Bool → α × Bool
  | [], r, err => (r, err)
  | (k, v) :: rest, r, err =>
    match findField names k with
    | none => decodeFields names set rest r err
    | some name => decodeFields names set rest (set r name v).1 (err || (set r name v).2)

/-- Outcome of `json.Unmarshal(data, &r)` for a struct `r`: the struct afterwards and the
error.  Text that is not JSON leaves the struct untouched; a type error does not. -/
def unmarshalStruct {α : Type} (names : List String) (set : α → String → Json → α × Bool)
    (data : String) (r : α) : α × Option GoError :=
  match parseJson data with
  | none => (r, some syntaxError)
  | some .null => (r, none)
  | some (.obj fields) =>
    ((decodeFields names set fields r false).1,
      if (decodeFields names set fields r false).2 then some typeError else none)
  | some _ => (r, some typeError)

/-! ## The types of `work.go` -/

/-- Go struct `Client`. -/
structure Client where
  CorpID : String
  CorpSecret : String
  AgentID : String
deriving DecidableEq

/-- Go struct `Resp`. -/
structure Resp where
  ErrCode : Int := 0
  ErrMsg : String := ""
deriving DecidableEq

/-- Go struct `AccessTokenResp`. -/
structure AccessTokenResp extends Resp where
  AccessToken : String := ""
  ExpiresIn : Int := 0
deriving DecidableEq

/-- Go struct `User`. -/
structure User where
  UserId : String := ""
  Name : String := ""
deriving DecidableEq

/-- Go struct `UserResp`. -/
structure UserResp extends Resp, User
deriving DecidableEq

/-- JSON names of the fields of `Resp`. -/
def Resp.fieldNames : List String := ["errcode", "errmsg"]

/-- Decode a value into the named field of a `Resp`. -/
def Resp.setField (r : Resp) (name : String) (v : Json) : Resp × Bool :=
  if name = "errcode" then ({ r with ErrCode := (storeInt v r.ErrCode).1 }, (storeInt v r.ErrCode).2)
  else if name = "errmsg" then
    ({ r with ErrMsg := (storeString v r.ErrMsg).1 }, (storeString v r.ErrMsg).2)
  else (r, false)

/-- JSON names of the fields of `AccessTokenResp`. -/
def AccessTokenResp.fieldNames : List String :=
  ["errcode", "errmsg", "access_token", "expires_in"]

/-- Decode a value into the named field of an `AccessTokenResp`. -/
def AccessTokenResp.setField (r : AccessTokenResp) (name : String) (v : Json) :
    AccessTokenResp × Bool :=
  if name = "errcode" then ({ r with ErrCode := (storeInt v r.ErrCode).1 }, (storeInt v r.ErrCode).2)
  else if name = "errmsg" then
    ({ r with ErrMsg := (storeString v r.ErrMsg).1 }, (storeString v r.ErrMsg).2)
  else if name = "access_token" then
    ({ r with AccessToken := (storeString v r.AccessToken).1 }, (storeString v r.AccessToken).2)
  else if name = "expires_in" then
    ({ r with ExpiresIn := (storeInt v r.ExpiresIn).1 }, (storeInt v r.ExpiresIn).2)
  else (r, false)

/-- JSON names of the fields of `UserResp`. -/
def UserResp.fieldNames : List String := ["errcode", "errmsg", "userid", "name"]

/-- Decode a value into the named field of a `UserResp`. -/
def UserResp.setField (r : UserResp) (name : String) (v : Json) : UserResp × Bool :=
  if name = "errcode" then ({ r with ErrCode := (storeInt v r.ErrCode).1 }, (storeInt v r.ErrCode).2)
  else if name = "errmsg" then
    ({ r with ErrMsg := (storeString v r.ErrMsg).1 }, (storeString v r.ErrMsg).2)
  else if name = "userid" then
    ({ r with UserId := (storeString v r.UserId).1 }, (storeString v r.UserId).2)
  else if name = "name" then
    ({ r with Name := (storeString v r.Name).1 }, (storeString v r.Name).2)
  else (r, false)

/-- Outcome of `json.Unmarshal(data, &resp)` for `resp` of type `Resp`. -/
def unmarshalResp (data : String) (r : Resp) : Resp × Option GoError :=
  unmarshalStruct Resp.fieldNames Resp.setField data r

/-- Outcome of `json.Unmarshal(data, &resp)` for `resp` of type `AccessTokenResp`. -/
def unmarshalAccessTokenResp (data : String) (r : AccessTokenResp) :
    AccessTokenResp × Option GoError :=
  unmarshalStruct AccessTokenResp.fieldNames AccessTokenResp.setField data r

/-- Outcome of `json.Unmarshal(data, &resp)` for `resp` of type `UserResp`. -/
def unmarshalUserResp (data : String) (r : UserResp) : UserResp × Option GoError :=
  unmarshalStruct UserResp.fieldNames UserResp.setField data r

/-! ## `encoding/json`: encoding -/

/-- Dynamic value of an `interface{}` handed to `json.Marshal`.  The package builds strings
and string-keyed maps; a value of any other type is represented by what `json.Marshal` makes
of it, its JSON text or an error. -/
inductive GoData where
  | string (s : String)
  | map (entries : List (String × GoData))
  | other (encoding : Except GoError String)

/-- Lower-case hexadecimal digit. -/
def hexDigit (n : Nat) : Char :=
  if n < 10 then Char.ofNat (48 + n) else Char.ofNat (87 + n)

/-- How `json.Marshal` writes one character of a string (HTML escaping is on).  Releases of
Go from 1.22 on write backspace and form feed as `\b` and `\f` where this writes `\u0008`
and `\u000c`; both spellings decode to the same character. -/
def escapeChar (c : Char) : List Char :=
  if c = '"' then ['\\', '"']
  else if c = '\\' then ['\\', '\\']
  else if c = '\n' then ['\\', 'n']
  else if c = '\r' then ['\\', 'r']
  else if c = '\t' then ['\\', 't']
  else if c.toNat < 0x20 ∨ c = '<' ∨ c = '>' ∨ c = '&' then
    ['\\', 'u', '0', '0', hexDigit (c.toNat / 16), hexDigit (c.toNat % 16)]
  else if c.toNat = 0x2028 ∨ c.toNat = 0x2029 then
    ['\\', 'u', '2', '0', '2', hexDigit (c.toNat % 16)]
  else [c]

/-- The characters of a string, each as `json.Marshal` writes it. -/
def escapeChars : List Char → List Char
  | [] => []
  | c :: cs => escapeChar c ++ escapeChars cs

/-- JSON text of a Go string. -/
def quoteString (s : String) : String :=
  String.mk ('"' :: (escapeChars s.toList ++ ['"']))

/-- Byte-wise order of two strings (`strings.Compare` is negative). -/
def strLt : List Char → List Char → Bool
  | _, [] => false
  | [], _ :: _ => true
  | a :: as, b :: bs => decide (a.toNat < b.toNat) || (decide (a.toNat = b.toNat) && strLt as bs)

/-- Insert an encoded map entry by key. -/
def insertEntry (e : String × Except GoError String) :
    List (String × Except GoError String) → List (String × Except GoError String)
  | [] => [e]
  | x :: xs => if strLt x.1.toList e.1.toList then x :: insertEntry e xs else e :: x :: xs

/-- Map entries in the order `json.Marshal` writes them: sorted by key. -/
def sortEntries : List (String × Except GoError String) → List (String × Except GoError String)
  | [] => []
  | e :: es => insertEntry e (sortEntries es)

/-- The text of the entries of an object, or the first error in writing order. -/
def joinEntries : List (String × Except GoError String) → Except GoError (List String)
  | [] => .ok []
  | (_, .error err) :: _ => .error err
  | (k, .ok v) :: rest =>
    match joinEntries rest with
    | .error err => .error err
    | .ok texts => .ok ((quoteString k ++ ":" ++ v) :: texts)

/-- JSON text of an object from the texts of its entries. -/
def objectText (texts : List String) : String :=
  "\x7b" ++ ",".intercalate texts ++ "\x7d"

mutual
/-- Result of `json.Marshal` on a value. -/
def GoData.marshal : GoData → Except GoError String
  | .string s => .ok (quoteString s)
  | .map entries =>
    match joinEntries (sortEntries (GoData.marshalEntries entries)) with
    | .error err => .error err
    | .ok texts => .ok (objectText texts)
  | .other encoding => encoding
/-- Result of `json.Marshal` on each value of a map. -/
def GoData.marshalEntries : List (String × GoData) → List (String × Except GoError String)
  | [] => []
  | (k, v) :: rest => (k, GoData.marshal v) :: GoData.marshalEntries rest
end

/-! ## `strings` and `strconv` -/

/-- White space as `unicode.IsSpace` defines it. -/
def isSpace (c : Char) : Bool :=
  c = '\t' || c = '\n' || c.toNat = 0x0B || c.toNat = 0x0C || c = '\r' || c = ' ' ||
  c.toNat = 0x85 || c.toNat = 0xA0 || c.toNat = 0x1680 ||
  (decide (0x2000 ≤ c.toNat) && decide (c.toNat ≤ 0x200A)) ||
  c.toNat = 0x2028 || c.toNat = 0x2029 || c.toNat = 0x202F || c.toNat = 0x205F ||
  c.toNat = 0x3000

/-- Drop leading white space. -/
def trimLeft (cs : List Char) : List Char :=
  cs.dropWhile isSpace

/-- Drop trailing white space. -/
def trimRight (cs : List Char) : List Char :=
  (cs.reverse.dropWhile isSpace).reverse

/-- Go `strings.TrimSpace`. -/
def TrimSpace (s : String) : String :=
  String.mk (trimRight (trimLeft s.toList))

/-- Go `strconv.Itoa`. -/
def Itoa (n : Int) : String :=
  match n with
  | .ofNat m => Nat.repr m
  | .negSucc m => "-" ++ Nat.repr (m + 1)

/-! ## `net/http` -/

/-- What `request` hands to the HTTP stack: the arguments of `http.NewRequest`, the headers
it sets and the query parameters it adds. -/
structure HttpRequest where
  method : String
  url : String
  header : List (String × String)
  params : List (String × String)
  body : Option String
deriving DecidableEq

/-- The HTTP stack: `http.NewRequest`, `client.Do` and `ioutil.ReadAll`.  It answers with an
error, which `request` returns unchanged, or with a status code and the bytes of the response
body. -/
abbrev Transport := HttpRequest → Except GoError (Int × String)

/-! ## `work.go` -/

/-- Go constant `HOST`. -/
def HOST : String := "https://qyapi.weixin.qq.com/cgi-bin"

/-- Go method `Client.GetAPI`. -/
def Client.GetAPI (_c : Client) (path : String) : String :=
  TrimSpace HOST ++ "/" ++ TrimSpace path

/-- The request body of `request`: none for `data == nil`, else `json.Marshal(data)`. -/
def marshalBody (data : Option (List (String × GoData))) : Except GoError (Option String) :=
  match data with
  | none => .ok none
  | some entries =>
    match GoData.marshal (.map entries) with
    | .error err => .error err
    | .ok bytesData => .ok (some bytesData)

/-- The request `request` builds from its arguments and the encoded body. -/
def Client.newRequest (c : Client) (path method : String) (body : Option String)
    (params : List (String × String)) : HttpRequest :=
  { method := method
    url := c.GetAPI path
    header := [("Content-type", "application/json"), ("Connection", "Close"), ("Accept", "*/*")]
    params := params
    body := body }

/-- Go method `Client.request`, run against the HTTP stack `t`. -/
def Client.request (c : Client) (t : Transport) (path method : String)
    (data : Option (List (String × GoData))) (params : List (String × String)) :
    Except GoError String :=
  match marshalBody data with
  | .error err => .error err
  | .ok body =>
    match t (c.newRequest path method body params) with
    | .error err => .error err
    | .ok (statusCode, respData) =>
      if statusCode.tdiv 100 ≠ 2 then
        .error ⟨"StatusCode is " ++ Itoa statusCode ++ ",Error: " ++ respData⟩
      else .ok respData

/-- The value of `isOk` after the `switch` of `ParseRespData` on the `errcode` entry. -/
def errcodeIsOk (entry : Option GoValue) : Bool :=
  match entry with
  | some (.float64 x) => x.isZero
  | some (.int n) => decide (n = 0)
  | some (.string s) => decide (s = "0")
  | _ => false

/-- Go method `Client.ParseRespData`: the decoded map (`none` is Go `nil`) and `isOk`. -/
def Client.ParseRespData (_c : Client) (respData : String) : Option GoMap × Bool :=
  match unmarshalMap respData with
  | .error _ => (none, false)
  | .ok data => (data, errcodeIsOk (GoMap.get (data.getD []) "errcode"))

/-- Go method `Client.AccessToken`. -/
def Client.AccessToken (c : Client) (t : Transport) : String × Option GoError :=
  let resp : AccessTokenResp := {}
  match c.request t "gettoken" "GET" none [("corpid", c.CorpID), ("corpsecret", c.CorpSecret)] with
  | .error err => (resp.AccessToken, some err)
  | .ok respData =>
    match unmarshalAccessTokenResp respData resp with
    | (resp', some _) => (resp'.AccessToken, some ⟨"get access_token failed"⟩)
    | (resp', none) => (resp'.AccessToken, none)

/-- Go method `Client.GetUser`. -/
def Client.GetUser (c : Client) (t : Transport) (userid : String) : UserResp × Option GoError :=
  let resp : UserResp := {}
  match c.AccessToken t with
  | (_, some err) => (resp, some err)
  | (accessToken, none) =>
    match c.request t "user/get" "GET" none
        [("access_token", accessToken), ("userid", userid)] with
    | .error err => (resp, some err)
    | .ok respData =>
      match unmarshalUserResp respData resp with
      | (resp', some _) => (resp', some ⟨"get users failed"⟩)
      | (resp', none) => (resp', none)

/-- The map `Message` builds as the JSON body of the message. -/
def Client.messageData (c : Client) (toUser content : String) : List (String × GoData) :=
  [("touser", .string toUser),
   ("msgtype", .string "text"),
   ("agentid", .string c.AgentID),
   ("text", .map [("content", .string content)])]

/-- Go method `Client.Message`. -/
def Client.Message (c : Client) (t : Transport) (toUser content : String) :
    Resp × Option GoError :=
  let resp : Resp := {}
  match c.AccessToken t with
  | (_, some err) => (resp, some err)
  | (accessToken, none) =>
    match c.request t "message/send" "POST" (some (c.messageData toUser content))
        [("access_token", accessToken)] with
    | .error err => (resp, some err)
    | .ok respData =>
      match unmarshalResp respData resp with
      | (resp', some _) => (resp', some ⟨"message failed"⟩)
      | (resp', none) => (resp', none)

/-! ## Test servers -/

/-- URL of the token endpoint. -/
def tokenURL : String := "https://qyapi.weixin.qq.com/cgi-bin/gettoken"

/-- An HTTP stack standing for a test server: it answers the token endpoint with
`tokenAnswer` and every other URL with `answer`. -/
def stubTransport (tokenAnswer answer : Except GoError (Int × String)) : Transport :=
  fun req => if req.url = tokenURL then tokenAnswer else answer

/-- A client with corp id `C`, corp secret `S` and agent id `A`. -/
def testClient : Client := { CorpID := "C", CorpSecret := "S", AgentID := "A" }

/-- Token response of a successful `gettoken` call. -/
def okTokenBody : String :=
  "\x7b\"errcode\":0,\"errmsg\":\"ok\",\"access_token\":\"TOK\",\"expires_in\":7200\x7d"

/-- Token response whose `expires_in` is a JSON string. -/
def badExpiresBody : String :=
  "\x7b\"errcode\":0,\"access_token\":\"TOK\",\"expires_in\":\"7200\"\x7d"

/-- Token response whose `errcode` is a JSON string. -/
def badErrcodeBody : String :=
  "\x7b\"errcode\":\"x\",\"access_token\":\"TOK\"\x7d"

/-- Token response reporting an application error. -/
def invalidCorpBody : String :=
  "\x7b\"errcode\":40013,\"errmsg\":\"invalid corpid\"\x7d"

/-- Token response reporting an application error next to a token. -/
def invalidCorpTokenBody : String :=
  "\x7b\"errcode\":40013,\"errmsg\":\"invalid corpid\",\"access_token\":\"TOK\"\x7d"

/-- Response of `user/get` reporting an application error. -/
def invalidTokenBody : String :=
  "\x7b\"errcode\":40014,\"errmsg\":\"invalid access_token\"\x7d"

/-! ## Notions used in the statements -/

/-- The URL has a second `/` right behind the separator that `GetAPI` writes. -/
def doubleSeparator (url : String) : Bool :=
  ((TrimSpace HOST).toList ++ ['/', '/']).isPrefixOf url.toList

/-- The value of the last field of an object with the given key. -/
def lastField : List (String × Json) → String → Option Json
  | [], _ => none
  | (k', j) :: rest, k =>
    match lastField rest k with
    | some j' => some j'
    | none => if k' = k then some j else none

/-- Response with errcode 0 written as an integer. -/
def okBody : String := "\x7b\"errcode\":0,\"errmsg\":\"ok\"\x7d"

/-- The bytes `json.Marshal` makes of the map `Message` builds. -/
def Client.messageWire (c : Client) (toUser content : String) : String :=
  "\x7b\"agentid\":" ++ quoteString c.AgentID ++
    ",\"msgtype\":\"text\",\"text\":\x7b\"content\":" ++ quoteString content ++
    "\x7d,\"touser\":" ++ quoteString toUser ++ "\x7d"

/-- Token response with errcode 0, the given errmsg and access_token, and expires_in 7200, as
`json.Marshal` writes the two strings. -/
def tokenEnvelope (token errmsg : String) : String :=
  "\x7b\"errcode\":0,\"errmsg\":" ++ quoteString errmsg ++
    ",\"access_token\":" ++ quoteString token ++ ",\"expires_in\":7200\x7d"

/-- The message body of the scenario of the specification, for agent id `A`. -/
def aliceBobWire : String :=
  "\x7b\"agentid\":\"A\",\"msgtype\":\"text\",\"text\":\x7b\"content\":\"hello\"\x7d,\"touser\":\"alice|bob\"\x7d"

/-! ## Status codes -/

/-- Go `statusCode/100 == 2` holds exactly for the codes 200 to 299. -/
theorem tdiv_hundred_eq_two (S : Int) : S.tdiv 100 = 2 ↔ 200 ≤ S ∧ S ≤ 299 := by
  rcases le_or_lt 0 S with h | h
  · rw [Int.tdiv_eq_ediv h (by norm_num)]
    omega
  · have h1 : 0 ≤ (-S).tdiv 100 := Int.tdiv_nonneg (by omega) (by norm_num)
    have h2 : S.tdiv 100 = -((-S).tdiv 100) := by
      rw [← Int.neg_tdiv, neg_neg]
    constructor
    · intro h3
      omega
    · intro h3
      omega

/-! ## Decimal rendering -/

/-- Reading digits after a value already read. -/
theorem digitsVal_foldl (ds : List Char) :
    ∀ a : Nat, ds.foldl (fun n c => n * 10 + (c.toNat - 48)) a
      = a * 10 ^ ds.length + digitsVal ds := by
  induction ds with
  | nil =>
    intro a
    simp [digitsVal]
  | cons d ds ih =>
    intro a
    simp only [List.foldl_cons, digitsVal, List.length_cons]
    rw [ih, ih (0 * 10 + (d.toNat - 48))]
    ring

/-- A decimal digit character and its value. -/
theorem digitChar_spec (k : Nat) (h : k < 10) :
    isDigit (Nat.digitChar k) = true ∧ (Nat.digitChar k).toNat - 48 = k := by
  interval_cases k <;> decide

/-- The digits `Nat.repr` writes are decimal digits with the value of the number. -/
theorem toDigitsCore_spec (fuel : Nat) :
    ∀ (n : Nat) (ds : List Char), n < fuel → (∀ c ∈ ds, isDigit c = true) →
      (∀ c ∈ Nat.toDigitsCore 10 fuel n ds, isDigit c = true) ∧
      Nat.toDigitsCore 10 fuel n ds ≠ [] ∧
      digitsVal (Nat.toDigitsCore 10 fuel n ds) = n * 10 ^ ds.length + digitsVal ds := by
  induction fuel with
  | zero =>
    intro n ds h
    omega
  | succ fuel ih =>
    intro n ds hn hds
    have hd := digitChar_spec (n % 10) (Nat.mod_lt n (by norm_num))
    have hds' : ∀ c ∈ Nat.digitChar (n % 10) :: ds, isDigit c = true := by
      intro c hc
      rcases List.mem_cons.1 hc with hc | hc
      · rw [hc]
        exact hd.1
      · exact hds c hc
    have hv : digitsVal (Nat.digitChar (n % 10) :: ds) = n % 10 * 10 ^ ds.length + digitsVal ds := by
      simp only [digitsVal, List.foldl_cons]
      rw [digitsVal_foldl, hd.2]
      simp [digitsVal]
    unfold Nat.toDigitsCore
    by_cases h0 : n / 10 = 0
    · simp only [h0, if_true]
      refine ⟨hds', by simp, ?_⟩
      rw [hv]
      have : n % 10 = n := by omega
      rw [this]
    · simp only [h0, if_false]
      have hlt : n / 10 < fuel := by omega
      obtain ⟨h1, h2, h3⟩ := ih (n / 10) (Nat.digitChar (n % 10) :: ds) hlt hds'
      refine ⟨h1, h2, ?_⟩
      rw [h3, hv, List.length_cons, pow_succ]
      have hsplit : n / 10 * (10 ^ ds.length * 10) + (n % 10 * 10 ^ ds.length + digitsVal ds)
          = (10 * (n / 10) + n % 10) * 10 ^ ds.length + digitsVal ds := by ring
      rw [hsplit, Nat.div_add_mod]


/-- The digits of `Nat.repr`. -/
theorem repr_spec (m : Nat) :
    (∀ c ∈ (Nat.repr m).toList, isDigit c = true) ∧ (Nat.repr m).toList ≠ [] ∧
      digitsVal (Nat.repr m).toList = m := by
  have h := toDigitsCore_spec (m + 1) m [] (by omega) (by simp)
  simpa [Nat.repr, Nat.toDigits, List.asString, String.toList, digitsVal] using h

/-- A run of digits carries no sign. -/
theorem splitSign_digits (ds : List Char) (h : ∀ c ∈ ds, isDigit c = true) :
    splitSign ds = (false, ds) := by
  cases ds with
  | nil => rfl
  | cons d ds =>
    have hd : isDigit d = true := h d (List.mem_cons_self _ _)
    have h1 : d ≠ '-' := by
      intro hc
      subst hc
      exact absurd hd (by decide)
    have h2 : d ≠ '+' := by
      intro hc
      subst hc
      exact absurd hd (by decide)
    unfold splitSign
    split
    · rename_i heq
      exact absurd (List.cons.inj heq).1 h1
    · rename_i heq
      exact absurd (List.cons.inj heq).1 h2
    · rfl

/-- `strconv.ParseInt` reads back what `strconv.Itoa` writes, for every `int64`. -/
theorem parseInt_Itoa (n : Int) (hlo : -(int64Bound : Int) ≤ n) (hhi : n < (int64Bound : Int)) :
    parseInt (Itoa n) = some n := by
  cases n with
  | ofNat m =>
    obtain ⟨h1, h2, h3⟩ := repr_spec m
    have hs := splitSign_digits _ h1
    have hall : (Nat.repr m).toList.all isDigit = true := List.all_eq_true.2 h1
    have hne : (Nat.repr m).toList.isEmpty = false := by
      cases hl : (Nat.repr m).toList with
      | nil => exact absurd hl h2
      | cons a l => rfl
    have hm : m < int64Bound := by
      simp only [Int.ofNat_eq_coe] at hhi
      exact_mod_cast hhi
    show parseInt (Nat.repr m) = some (Int.ofNat m)
    unfold parseInt
    rw [hs]
    simp [hall, hne, h3, hm]
    exact ⟨⟨h2, h1⟩, by rw [show digitsVal (Nat.repr m).data = m from h3]; exact hm, h3⟩
  | negSucc m =>
    obtain ⟨h1, h2, h3⟩ := repr_spec (m + 1)
    have hl : (Itoa (Int.negSucc m)).toList = '-' :: (Nat.repr (m + 1)).toList := by
      simp [Itoa, String.toList]
    have hall : (Nat.repr (m + 1)).toList.all isDigit = true := List.all_eq_true.2 h1
    have hne : (Nat.repr (m + 1)).toList.isEmpty = false := by
      cases hl : (Nat.repr (m + 1)).toList with
      | nil => exact absurd hl h2
      | cons a l => rfl
    have hm : m + 1 ≤ int64Bound := by
      have : -(int64Bound : Int) ≤ -((m : Int) + 1) := by
        simpa [Int.negSucc_eq] using hlo
      omega
    unfold parseInt
    rw [hl]
    simp only [splitSign]
    simp [hall, hne, h3, hm, Int.negSucc_eq]
    have h3' : digitsVal (Nat.repr (m + 1)).data = m + 1 := h3
    refine ⟨⟨h2, h1⟩, by rw [h3']; exact hm, ?_⟩
    rw [h3']
    push_cast
    ring

/-! ## The request engine -/

/-- What `request` returns once the body is encoded and the HTTP stack has answered. -/
theorem request_of_answer (c : Client) (t : Transport) (path method : String)
    (data : Option (List (String × GoData))) (params : List (String × String))
    (body : Option String) (S : Int) (B : String)
    (hbody : marshalBody data = .ok body)
    (hresp : t (c.newRequest path method body params) = .ok (S, B)) :
    c.request t path method data params =
      if 200 ≤ S ∧ S ≤ 299 then .ok B
      else .error ⟨"StatusCode is " ++ Itoa S ++ ",Error: " ++ B⟩ := by
  by_cases h : 200 ≤ S ∧ S ≤ 299
  · have h2 : S.tdiv 100 = 2 := (tdiv_hundred_eq_two S).2 h
    simp [Client.request, hbody, hresp, h2, h]
  · have h2 : S.tdiv 100 ≠ 2 := fun h3 => h ((tdiv_hundred_eq_two S).1 h3)
    simp [Client.request, hbody, hresp, h2, h]

/-- Claim C1.  Whatever the path, method, body and query parameters: when the HTTP stack
answers the request with a status code from 200 to 299 and the response bytes `B`, `request`
returns `B` itself and no error. -/
theorem request_returns_body_on_2xx (c : Client) (t : Transport) (path method : String)
    (data : Option (List (String × GoData))) (params : List (String × String))
    (body : Option String) (S : Int) (B : String)
    (hbody : marshalBody data = .ok body)
    (hresp : t (c.newRequest path method body params) = .ok (S, B))
    (hlo : 200 ≤ S) (hhi : S ≤ 299) :
    c.request t path method data params = .ok B := by
  have h2 : S.tdiv 100 = 2 := (tdiv_hundred_eq_two S).2 ⟨hlo, hhi⟩
  simp [Client.request, hbody, hresp, h2]

/-- Claim C1, at a concrete input: a `POST` with a body, answered with status 204. -/
theorem request_returns_body_on_2xx_witness :
    testClient.request (stubTransport (.error ⟨"unused"⟩) (.ok (204, " raw\n bytes ")))
      " message/send" "POST" (some (testClient.messageData "alice" "hi"))
      [("access_token", "TOK")] = .ok " raw\n bytes " :=
  request_returns_body_on_2xx testClient _ " message/send" "POST"
    (some (testClient.messageData "alice" "hi")) [("access_token", "TOK")]
    (some "\x7b\"agentid\":\"A\",\"msgtype\":\"text\",\"text\":\x7b\"content\":\"hi\"\x7d,\"touser\":\"alice\"\x7d")
    204 " raw\n bytes " (by rfl) (by rfl) (by decide) (by decide)

/-- Claim C2.  When the HTTP stack answers with a status code `S` outside 200 to 299 and the
response bytes `B`, `request` returns no bytes and the error whose message is
`"StatusCode is "`, the decimal rendering of `S`, `",Error: "` and the text of `B`; the
rendering of `S` is the one `strconv.ParseInt` reads back as `S`. -/
theorem request_fails_outside_2xx (c : Client) (t : Transport) (path method : String)
    (data : Option (List (String × GoData))) (params : List (String × String))
    (body : Option String) (S : Int) (B : String)
    (hbody : marshalBody data = .ok body)
    (hresp : t (c.newRequest path method body params) = .ok (S, B))
    (hS : S < 200 ∨ 299 < S) :
    c.request t path method data params
        = .error ⟨"StatusCode is " ++ Itoa S ++ ",Error: " ++ B⟩ ∧
      (-(int64Bound : Int) ≤ S → S < (int64Bound : Int) → parseInt (Itoa S) = some S) := by
  have h2 : S.tdiv 100 ≠ 2 := fun h => by
    have := (tdiv_hundred_eq_two S).1 h
    omega
  refine ⟨?_, parseInt_Itoa S⟩
  simp [Client.request, hbody, hresp, h2]

/-- Claim C2, at a concrete input: status 404 with body `not found`. -/
theorem request_fails_outside_2xx_witness :
    testClient.request (stubTransport (.ok (404, "not found")) (.error ⟨"unused"⟩))
        "gettoken" "GET" none [] = .error ⟨"StatusCode is 404,Error: not found"⟩ ∧
      parseInt (Itoa 404) = some 404 :=
  ⟨(request_fails_outside_2xx testClient _ "gettoken" "GET" none [] none 404 "not found"
      (by rfl) (by rfl) (by decide)).1,
    (request_fails_outside_2xx testClient
      (stubTransport (.ok (404, "not found")) (.error ⟨"unused"⟩)) "gettoken" "GET" none []
      none 404 "not found" (by rfl) (by rfl) (by decide)).2 (by decide) (by decide)⟩

/-! ## Scanning what `json.Marshal` writes -/

/-- Scanning a character as `json.Marshal` writes it, inside a string, yields that
character. -/
theorem lexRun_escapeChar (c : Char) (acc : List Char) (toks : List Token) (tail : List Char) :
    lexRun (.inStr acc none) toks (escapeChar c ++ tail)
      = lexRun (.inStr (c :: acc) none) toks tail := by
  by_cases hlt : c.toNat < 128
  · have hc : c = Char.ofNat c.toNat := (Char.ofNat_toNat c).symm
    generalize c.toNat = n at hc hlt
    subst hc
    interval_cases n <;> rfl
  · by_cases h28 : c.toNat = 0x2028
    · have hc : c = Char.ofNat 0x2028 := by rw [← h28, Char.ofNat_toNat]
      subst hc
      rfl
    · by_cases h29 : c.toNat = 0x2029
      · have hc : c = Char.ofNat 0x2029 := by rw [← h29, Char.ofNat_toNat]
        subst hc
        rfl
      · have ne : ∀ x : Char, x.toNat < 128 → c ≠ x := by
          intro x hx h
          subst h
          exact hlt hx
        have h1 := ne '"' (by decide)
        have h2 := ne '\\' (by decide)
        have h3 := ne '\n' (by decide)
        have h4 := ne '\r' (by decide)
        have h5 := ne '\t' (by decide)
        have h6 := ne '<' (by decide)
        have h7 := ne '>' (by decide)
        have h8 := ne '&' (by decide)
        have h9 : ¬ c.toNat < 0x20 := by omega
        have he : escapeChar c = [c] := by
          simp [escapeChar, h1, h2, h3, h4, h5, h6, h7, h8, h9, h28, h29]
        rw [he]
        simp [lexRun, lexStep, h1, h2, h9, flushPend]

/-- Scanning a string as `json.Marshal` writes it yields that string. -/
theorem lexRun_escapeChars (s : List Char) :
    ∀ (acc : List Char) (toks : List Token) (tail : List Char),
      lexRun (.inStr acc none) toks (escapeChars s ++ '"' :: tail)
        = lexRun .start (.scalar (.str (String.mk (acc.reverse ++ s))) :: toks) tail := by
  induction s with
  | nil =>
    intro acc toks tail
    simp [escapeChars, lexRun, lexStep, flushPend]
  | cons c s ih =>
    intro acc toks tail
    simp only [escapeChars, List.append_assoc]
    rw [lexRun_escapeChar, ih]
    simp

/-- Scanning the JSON text of a Go string yields the string as one lexical item. -/
theorem lexRun_quoteString (s : String) (toks : List Token) (tail : List Char) :
    lexRun .start toks ((quoteString s).toList ++ tail)
      = lexRun .start (.scalar (.str s) :: toks) tail := by
  have h := lexRun_escapeChars s.toList [] toks tail
  simp only [List.reverse_nil, List.nil_append] at h
  have hs : String.mk s.toList = s := rfl
  rw [hs] at h
  rw [← h]
  have hq : (quoteString s).toList ++ tail = '"' :: (escapeChars s.toList ++ '"' :: tail) := by
    simp [quoteString, String.toList]
  rw [hq]
  rfl


/-- The lexical items of `tokenEnvelope`. -/
theorem lex_tokenEnvelope (token errmsg : String) :
    lex (tokenEnvelope token errmsg).toList
      = some [.beginObj, .scalar (.str "errcode"), .colon, .scalar (.num "0"), .comma,
          .scalar (.str "errmsg"), .colon, .scalar (.str errmsg), .comma,
          .scalar (.str "access_token"), .colon, .scalar (.str token), .comma,
          .scalar (.str "expires_in"), .colon, .scalar (.num "7200"), .endObj] := by
  have hw : (tokenEnvelope token errmsg).toList
      = ("\x7b\"errcode\":0,\"errmsg\":" : String).data ++ ((quoteString errmsg).toList ++
          ((",\"access_token\":" : String).data ++
            ((quoteString token).toList ++ (",\"expires_in\":7200\x7d" : String).data))) := by
    simp [tokenEnvelope, String.toList, List.append_assoc]
  have s1 : ∀ (r : List Char),
      lexRun .start [] (("\x7b\"errcode\":0,\"errmsg\":" : String).data ++ r)
        = lexRun .start [.colon, .scalar (.str "errmsg"), .comma, .scalar (.num "0"), .colon,
            .scalar (.str "errcode"), .beginObj] r := fun _ => rfl
  have s2 : ∀ (toks : List Token) (r : List Char),
      lexRun .start toks ((",\"access_token\":" : String).data ++ r)
        = lexRun .start (.colon :: .scalar (.str "access_token") :: .comma :: toks) r :=
    fun _ _ => rfl
  have s3 : ∀ (toks : List Token),
      lexRun .start toks (",\"expires_in\":7200\x7d" : String).data
        = some (.start, .endObj :: .scalar (.num "7200") :: .colon ::
            .scalar (.str "expires_in") :: .comma :: toks) := fun _ => rfl
  unfold lex
  rw [hw, s1, lexRun_quoteString, s2, lexRun_quoteString, s3]
  rfl

/-- Decoding `tokenEnvelope` into the token envelope gives back the token and the message. -/
theorem unmarshal_tokenEnvelope (token errmsg : String) :
    unmarshalAccessTokenResp (tokenEnvelope token errmsg) {}
      = ({ ErrCode := 0, ErrMsg := errmsg, AccessToken := token, ExpiresIn := 7200 }, none) := by
  have hp : parseJson (tokenEnvelope token errmsg)
      = some (.obj [("errcode", .num "0"), ("errmsg", .str errmsg),
          ("access_token", .str token), ("expires_in", .num "7200")]) := by
    unfold parseJson
    rw [lex_tokenEnvelope]
    rfl
  unfold unmarshalAccessTokenResp unmarshalStruct
  rw [hp]
  rfl

/-! ## The token provider -/

/-- What `AccessToken` returns once the token endpoint has answered with a 2xx status: the
`AccessToken` field of the decoded struct, with the fixed error exactly when decoding
reported one. -/
theorem accessToken_of_2xx (c : Client) (t : Transport) (S : Int) (B : String)
    (hresp : t (c.newRequest "gettoken" "GET" none
      [("corpid", c.CorpID), ("corpsecret", c.CorpSecret)]) = .ok (S, B))
    (hlo : 200 ≤ S) (hhi : S ≤ 299) :
    c.AccessToken t =
      ((unmarshalAccessTokenResp B {}).1.AccessToken,
        match (unmarshalAccessTokenResp B {}).2 with
        | some _ => some ⟨"get access_token failed"⟩
        | none => none) := by
  have hreq : c.request t "gettoken" "GET" none
      [("corpid", c.CorpID), ("corpsecret", c.CorpSecret)] = .ok B := by
    rw [request_of_answer c t "gettoken" "GET" none _ none S B rfl hresp, if_pos ⟨hlo, hhi⟩]
  unfold Client.AccessToken
  simp only [hreq]
  rcases hd : unmarshalAccessTokenResp B {} with ⟨r, _ | e⟩ <;> simp

/-- Claim C3, as amended.  When the token endpoint answers the `gettoken` request with a 2xx
status and a body that decodes without error into the token envelope, with `errcode` 0 and
the non-empty `access_token` `T`, then `AccessToken` returns `T` and no error.  Such a body
is, for every token `T` and every message, the object with `errcode` 0, that `errmsg`, the
`access_token` `T` and `expires_in` 7200. -/
theorem accessToken_returns_token (c : Client) (t : Transport) (S : Int) (B : String)
    (hresp : t (c.newRequest "gettoken" "GET" none
      [("corpid", c.CorpID), ("corpsecret", c.CorpSecret)]) = .ok (S, B))
    (hlo : 200 ≤ S) (hhi : S ≤ 299) :
    (∀ (r : AccessTokenResp) (T : String), unmarshalAccessTokenResp B {} = (r, none) →
      r.ErrCode = 0 → r.AccessToken = T → T ≠ "" → c.AccessToken t = (T, none)) ∧
    (∀ T errmsg : String, B = tokenEnvelope T errmsg → c.AccessToken t = (T, none)) := by
  constructor
  · intro r T hdec _ htok _
    rw [accessToken_of_2xx c t S B hresp hlo hhi, hdec, htok]
  · intro T errmsg hB
    rw [accessToken_of_2xx c t S B hresp hlo hhi, hB, unmarshal_tokenEnvelope]

/-- Claim C3, the scenario of the specification: corp id `C`, corp secret `S`, and a server
that answers `gettoken` with errcode 0, errmsg `ok`, access_token `TOK` and expires_in 7200. -/
theorem accessToken_returns_token_witness :
    testClient.AccessToken (stubTransport (.ok (200, okTokenBody)) (.error ⟨"unused"⟩))
      = ("TOK", none) :=
  (accessToken_returns_token testClient _ 200 okTokenBody (by rfl) (by decide) (by decide)).1
    { ErrCode := 0, ErrMsg := "ok", AccessToken := "TOK", ExpiresIn := 7200 } "TOK"
    (by rfl) (by rfl) (by rfl) (by decide)

/-- Claim C3 as stated fails.  The body below is a JSON object with `errcode` 0 and the
non-empty string `access_token` `TOK`; its `expires_in` is a string, so decoding into the
token envelope reports a type error and `AccessToken` returns an error. -/
theorem accessToken_returns_token_counterexample :
    parseJson badExpiresBody
        = some (.obj [("errcode", .num "0"), ("access_token", .str "TOK"),
            ("expires_in", .str "7200")]) ∧
      testClient.AccessToken (stubTransport (.ok (200, badExpiresBody)) (.error ⟨"unused"⟩))
        = ("TOK", some ⟨"get access_token failed"⟩) :=
  ⟨by rfl, by rfl⟩

/-- Claim C4, as amended.  When the token endpoint answers the `gettoken` request with a 2xx
status and an envelope that decodes without error and whose `errcode` is not zero, then
`AccessToken` returns no error, and as token the `access_token` of the envelope (the empty
string when the body has none): `errcode` is not looked at. -/
theorem accessToken_ignores_errcode (c : Client) (t : Transport) (S : Int) (B : String)
    (r : AccessTokenResp)
    (hresp : t (c.newRequest "gettoken" "GET" none
      [("corpid", c.CorpID), ("corpsecret", c.CorpSecret)]) = .ok (S, B))
    (hlo : 200 ≤ S) (hhi : S ≤ 299)
    (hdec : unmarshalAccessTokenResp B {} = (r, none))
    (_hcode : r.ErrCode ≠ 0) :
    c.AccessToken t = (r.AccessToken, none) := by
  rw [accessToken_of_2xx c t S B hresp hlo hhi, hdec]

/-- Claim C4 as amended, at a concrete input: errcode 40013 and no token in the body. -/
theorem accessToken_ignores_errcode_witness :
    testClient.AccessToken (stubTransport (.ok (200, invalidCorpBody)) (.error ⟨"unused"⟩))
      = ("", none) :=
  accessToken_ignores_errcode testClient _ 200 invalidCorpBody
    { ErrCode := 40013, ErrMsg := "invalid corpid" }
    (by rfl) (by decide) (by decide) (by rfl) (by decide)

/-- Claim C4 as stated fails.  For an envelope with errcode 40013 `AccessToken` returns a nil
error, and when the body carries an `access_token` next to the errcode it returns that token
rather than the empty string. -/
theorem accessToken_ignores_errcode_counterexample :
    (unmarshalAccessTokenResp invalidCorpBody {}).1.ErrCode = 40013 ∧
      testClient.AccessToken (stubTransport (.ok (200, invalidCorpBody)) (.error ⟨"unused"⟩))
        = ("", none) ∧
      (unmarshalAccessTokenResp invalidCorpTokenBody {}).1.ErrCode = 40013 ∧
      testClient.AccessToken
          (stubTransport (.ok (200, invalidCorpTokenBody)) (.error ⟨"unused"⟩))
        = ("TOK", none) :=
  ⟨by rfl, by rfl, by rfl, by rfl⟩

/-- Claim C8.  `AccessToken` at a body whose `access_token` is a well-formed string and whose
`errcode` (first line) or `expires_in` (second line) has the wrong JSON type: the decoder
reports the type error after it has stored the token, and `AccessToken` returns the error
together with the token `TOK`, not with the empty string. -/
theorem accessToken_leaks_token_on_type_error :
    testClient.AccessToken (stubTransport (.ok (200, badErrcodeBody)) (.error ⟨"unused"⟩))
        = ("TOK", some ⟨"get access_token failed"⟩) ∧
      testClient.AccessToken (stubTransport (.ok (200, badExpiresBody)) (.error ⟨"unused"⟩))
        = ("TOK", some ⟨"get access_token failed"⟩) :=
  ⟨by rfl, by rfl⟩

/-- The parts of claim C8 that hold: the token is empty when the HTTP stack fails, when the
status is outside 200 to 299, and when the body is not JSON text. -/
theorem accessToken_empty_on_other_failures (c : Client) (t : Transport) :
    (∀ e, t (c.newRequest "gettoken" "GET" none
        [("corpid", c.CorpID), ("corpsecret", c.CorpSecret)]) = .error e →
      c.AccessToken t = ("", some e)) ∧
    (∀ S B, t (c.newRequest "gettoken" "GET" none
        [("corpid", c.CorpID), ("corpsecret", c.CorpSecret)]) = .ok (S, B) →
      (S < 200 ∨ 299 < S) →
      c.AccessToken t = ("", some ⟨"StatusCode is " ++ Itoa S ++ ",Error: " ++ B⟩)) ∧
    (∀ S B, t (c.newRequest "gettoken" "GET" none
        [("corpid", c.CorpID), ("corpsecret", c.CorpSecret)]) = .ok (S, B) →
      200 ≤ S → S ≤ 299 → parseJson B = none →
      c.AccessToken t = ("", some ⟨"get access_token failed"⟩)) := by
  refine ⟨?_, ?_, ?_⟩
  · intro e he
    simp [Client.AccessToken, Client.request, marshalBody, he]
  · intro S B hresp hS
    have hreq := request_of_answer c t "gettoken" "GET" none
      [("corpid", c.CorpID), ("corpsecret", c.CorpSecret)] none S B rfl hresp
    rw [if_neg (by omega)] at hreq
    simp [Client.AccessToken, hreq]
  · intro S B hresp hlo hhi hparse
    rw [accessToken_of_2xx c t S B hresp hlo hhi]
    simp [unmarshalAccessTokenResp, unmarshalStruct, hparse]

/-! ## Endpoint operations -/

/-- Claim C7, as amended.  When the token fetch succeeds and the `user/get` request is
answered with a 2xx status and an envelope that decodes without error and whose `errcode` is
not zero, then `GetUser` returns no error: it returns the decoded envelope, and the non-zero
`errcode` is to be read from there. -/
theorem getUser_returns_envelope (c : Client) (t : Transport) (userid tok : String) (S : Int)
    (B : String) (r : UserResp)
    (htok : c.AccessToken t = (tok, none))
    (hresp : t (c.newRequest "user/get" "GET" none
      [("access_token", tok), ("userid", userid)]) = .ok (S, B))
    (hlo : 200 ≤ S) (hhi : S ≤ 299)
    (hdec : unmarshalUserResp B {} = (r, none))
    (_hcode : r.ErrCode ≠ 0) :
    c.GetUser t userid = (r, none) := by
  have hreq : c.request t "user/get" "GET" none
      [("access_token", tok), ("userid", userid)] = .ok B := by
    rw [request_of_answer c t "user/get" "GET" none _ none S B rfl hresp, if_pos ⟨hlo, hhi⟩]
  unfold Client.GetUser
  simp only [htok, hreq, hdec]

/-- Claim C7 as amended, at the scenario of the specification: user id `u1`, and a server
that answers `user/get` with errcode 40014 and errmsg `invalid access_token`. -/
theorem getUser_returns_envelope_witness :
    testClient.GetUser (stubTransport (.ok (200, okTokenBody)) (.ok (200, invalidTokenBody)))
      "u1" = ({ ErrCode := 40014, ErrMsg := "invalid access_token" }, none) :=
  getUser_returns_envelope testClient _ "u1" "TOK" 200 invalidTokenBody
    { ErrCode := 40014, ErrMsg := "invalid access_token" }
    (by rfl) (by rfl) (by decide) (by decide) (by rfl) (by decide)

/-- Claim C7 as stated fails.  The token fetch succeeds, `user/get` is answered with status
200 and an envelope with errcode 40014, and the error `GetUser` returns is nil. -/
theorem getUser_returns_envelope_counterexample :
    testClient.AccessToken (stubTransport (.ok (200, okTokenBody)) (.ok (200, invalidTokenBody)))
        = ("TOK", none) ∧
      (unmarshalUserResp invalidTokenBody {}).1.ErrCode = 40014 ∧
      (testClient.GetUser (stubTransport (.ok (200, okTokenBody)) (.ok (200, invalidTokenBody)))
        "u1").2 = none :=
  ⟨by rfl, by rfl, by rfl⟩

/-! ## Endpoint resolution -/

/-- Leading white space in front of a text does not survive `trimLeft`. -/
theorem trimLeft_append_left (ws rest : List Char) (h : ∀ c ∈ ws, isSpace c = true) :
    trimLeft (ws ++ rest) = trimLeft rest := by
  induction ws with
  | nil => rfl
  | cons a ws ih =>
    have ha : isSpace a = true := h a (List.mem_cons_self a ws)
    have hws : ∀ c ∈ ws, isSpace c = true := fun c hc => h c (List.mem_cons_of_mem a hc)
    simp only [trimLeft, List.cons_append, List.dropWhile_cons, ha, if_true]
    exact ih hws

/-- Trailing white space behind a text does not survive `trimRight`. -/
theorem trimRight_append_right (rest ws : List Char) (h : ∀ c ∈ ws, isSpace c = true) :
    trimRight (rest ++ ws) = trimRight rest := by
  have h' : ∀ c ∈ ws.reverse, isSpace c = true := fun c hc => h c (List.mem_reverse.1 hc)
  have := trimLeft_append_left ws.reverse rest.reverse h'
  simp only [trimLeft] at this
  simp only [trimRight, List.reverse_append, this]

/-- White space alone trims to nothing. -/
theorem trimLeft_spaces (ws : List Char) (h : ∀ c ∈ ws, isSpace c = true) :
    trimLeft ws = [] := by
  have := trimLeft_append_left ws [] h
  simpa using this

/-- Trailing white space does not change what is left after trimming both ends. -/
theorem trim_append_right (p ws : List Char) (h : ∀ c ∈ ws, isSpace c = true) :
    trimRight (trimLeft (p ++ ws)) = trimRight (trimLeft p) := by
  induction p with
  | nil =>
    simp only [List.nil_append, trimLeft_spaces ws h]
    rfl
  | cons a p ih =>
    by_cases ha : isSpace a = true
    · simpa only [trimLeft, List.cons_append, List.dropWhile_cons, ha, if_true] using ih
    · have hl : trimLeft (a :: p ++ ws) = (a :: p) ++ ws := by
        simp [trimLeft, List.dropWhile_cons, ha]
      have hr : trimLeft (a :: p) = a :: p := by
        simp [trimLeft, List.dropWhile_cons, ha]
      rw [hl, hr, trimRight_append_right _ _ h]

/-- `TrimSpace` does not see white space added in front of or behind its argument. -/
theorem TrimSpace_pad (ws1 path ws2 : String) (h1 : ∀ c ∈ ws1.toList, isSpace c = true)
    (h2 : ∀ c ∈ ws2.toList, isSpace c = true) :
    TrimSpace (ws1 ++ path ++ ws2) = TrimSpace path := by
  unfold TrimSpace
  congr 1
  have hl : (ws1 ++ path ++ ws2).toList = ws1.toList ++ (path.toList ++ ws2.toList) := by
    simp [String.toList]
  rw [hl, trimLeft_append_left _ _ h1, trim_append_right _ _ h2]

/-- What is left after trimming both ends does not begin with white space. -/
theorem trim_head (p : List Char) (a : Char) (h : (trimRight (trimLeft p)).head? = some a) :
    isSpace a = false := by
  have hl := List.head?_dropWhile_not isSpace p
  rcases hq : trimLeft p with _ | ⟨b, q⟩
  · rw [hq] at h
    simp [trimRight] at h
  · have hb : isSpace b = false := by
      simp only [trimLeft] at hq
      rw [hq] at hl
      simpa using hl
    rw [hq] at h
    have hd : (q.reverse ++ [b]).dropWhile isSpace = q.reverse.dropWhile isSpace ++ [b] := by
      induction q.reverse with
      | nil => simp [List.dropWhile_cons, hb]
      | cons x xs ih =>
        by_cases hx : isSpace x = true
        · simp only [List.cons_append, List.dropWhile_cons, hx, if_true, ih]
        · simp [List.dropWhile_cons, hx]
    simp only [trimRight, List.reverse_cons, hd, List.reverse_append, List.reverse_singleton,
      List.singleton_append, List.head?_cons, Option.some.injEq, List.reverse_nil,
      List.nil_append] at h
    rw [← h]
    exact hb

/-- What is left after trimming both ends does not end with white space. -/
theorem trim_getLast (p : List Char) (a : Char)
    (h : (trimRight (trimLeft p)).getLast? = some a) : isSpace a = false := by
  have hl := List.head?_dropWhile_not isSpace (trimLeft p).reverse
  simp only [trimRight, List.getLast?_reverse] at h
  rw [h] at hl
  simpa using hl

/-- `HOST` has no white space to trim. -/
theorem TrimSpace_HOST : TrimSpace HOST = HOST := by decide

/-- Claim C9, as amended.  `GetAPI` returns the trimmed host, one `/` and the trimmed path:
neither end of the trimmed path is white space, and white space added in front of or behind
the path does not change the result.  Behind the `/` that `GetAPI` writes there is no second
`/` provided the trimmed path does not begin with one. -/
theorem getAPI_joins_trimmed (c : Client) (path : String) :
    c.GetAPI path = TrimSpace HOST ++ "/" ++ TrimSpace path ∧
    (∀ a, (TrimSpace path).toList.head? = some a → isSpace a = false) ∧
    (∀ a, (TrimSpace path).toList.getLast? = some a → isSpace a = false) ∧
    (∀ ws1 ws2 : String, (∀ x ∈ ws1.toList, isSpace x = true) →
      (∀ x ∈ ws2.toList, isSpace x = true) → c.GetAPI (ws1 ++ path ++ ws2) = c.GetAPI path) ∧
    ((TrimSpace path).toList.head? ≠ some '/' → doubleSeparator (c.GetAPI path) = false) := by
  refine ⟨rfl, ?_, ?_, ?_, ?_⟩
  · intro a h
    exact trim_head path.toList a h
  · intro a h
    exact trim_getLast path.toList a h
  · intro ws1 ws2 h1 h2
    simp only [Client.GetAPI, TrimSpace_pad ws1 path ws2 h1 h2]
  · intro h
    rw [Bool.eq_false_iff]
    intro hd
    apply h
    have hu : (c.GetAPI path).toList
        = (TrimSpace HOST).toList ++ ('/' :: (TrimSpace path).toList) := by
      simp [Client.GetAPI, String.toList]
    simp only [doubleSeparator, hu, List.isPrefixOf_iff_prefix] at hd
    have h3 := (List.prefix_append_right_inj _).1 hd
    simp only [List.cons_prefix_cons, true_and] at h3
    obtain ⟨t, ht⟩ := h3
    rw [← ht]
    rfl

/-- Claim C9 as amended, at concrete inputs: the path `gettoken` padded with a blank, a tab
and a line feed, and the path `user/get`. -/
theorem getAPI_joins_trimmed_witness :
    testClient.GetAPI (" \t" ++ "gettoken" ++ "\n") = testClient.GetAPI "gettoken" ∧
      doubleSeparator (testClient.GetAPI "user/get") = false :=
  ⟨(getAPI_joins_trimmed testClient "gettoken").2.2.2.1 " \t" "\n" (by decide) (by decide),
    (getAPI_joins_trimmed testClient "user/get").2.2.2.2 (by decide)⟩

/-- Claim C9 as stated fails.  For the path `/gettoken` the separator that `GetAPI` writes
is followed by the `/` of the path: the host and the first segment are `//` apart. -/
theorem getAPI_joins_trimmed_counterexample :
    testClient.GetAPI "/gettoken" = "https://qyapi.weixin.qq.com/cgi-bin//gettoken" ∧
      doubleSeparator (testClient.GetAPI "/gettoken") = true :=
  ⟨by decide, by decide⟩

/-! ## The response classifier -/

/-- Decoding JSON never produces a Go `int`. -/
theorem toInterface_ne_int (j : Json) (n : Int) : Json.toInterface j ≠ .int n := by
  cases j with
  | num lit =>
    unfold Json.toInterface
    split <;> simp
  | _ => simp [Json.toInterface]

/-- No entry of a decoded map is a Go `int`. -/
theorem toInterfaceMap_get_ne_int (fields : List (String × Json)) (k : String) (n : Int) :
    GoMap.get (Json.toInterfaceMap fields) k ≠ some (.int n) := by
  induction fields with
  | nil => simp [Json.toInterfaceMap, GoMap.get]
  | cons p rest ih =>
    obtain ⟨k', j⟩ := p
    unfold Json.toInterfaceMap
    split
    · exact ih
    · unfold GoMap.get at ih ⊢
      rw [List.lookup_cons]
      split
      · intro h
        exact toInterface_ne_int j n (Option.some.inj h)
      · exact ih

/-- The map `json.Unmarshal` fills holds no Go `int`. -/
theorem unmarshalMap_get_ne_int (data : String) (m : GoMap) (k : String) (n : Int)
    (h : unmarshalMap data = .ok (some m)) : GoMap.get m k ≠ some (.int n) := by
  unfold unmarshalMap at h
  split at h
  · simp at h
  · split at h
    · simp only [Except.ok.injEq, Option.some.injEq] at h
      rw [← h]
      exact toInterfaceMap_get_ne_int _ k n
    · simp at h
  · simp at h
  · simp at h

set_option exponentiation.threshold 2000 in
/-- Claim C5.  For every input, the boolean `ParseRespData` returns is true exactly when the
input decodes as a JSON object whose `errcode` entry is the number zero or the string `0`.
The encodings `0`, `0.0` and `"0"` give true; the values `1`, `-1`, `"1"`, `"0.0"`, `null`
and `true`, an object without `errcode`, and input that does not decode give false.  The
number is the `float64` the decoder produces: `-0` and a literal too small for a `float64`,
such as `1e-400`, decode to zero. -/
theorem parseRespData_isOk_iff (c : Client) :
    (∀ respData : String, (c.ParseRespData respData).2 = true ↔
      ∃ m v, unmarshalMap respData = .ok (some m) ∧ GoMap.get m "errcode" = some v ∧
        ((∃ neg, v = .float64 (.zero neg)) ∨ v = .string "0")) ∧
    (c.ParseRespData "\x7b\"errcode\":0\x7d").2 = true ∧
    (c.ParseRespData "\x7b\"errcode\":0.0\x7d").2 = true ∧
    (c.ParseRespData "\x7b\"errcode\":\"0\"\x7d").2 = true ∧
    (c.ParseRespData "\x7b\"errcode\":1\x7d").2 = false ∧
    (c.ParseRespData "\x7b\"errcode\":-1\x7d").2 = false ∧
    (c.ParseRespData "\x7b\"errcode\":\"1\"\x7d").2 = false ∧
    (c.ParseRespData "\x7b\"errcode\":\"0.0\"\x7d").2 = false ∧
    (c.ParseRespData "\x7b\"errcode\":null\x7d").2 = false ∧
    (c.ParseRespData "\x7b\"errcode\":true\x7d").2 = false ∧
    (c.ParseRespData "\x7b\"errmsg\":\"ok\"\x7d").2 = false ∧
    (c.ParseRespData "\x7b\"errcode\":0").2 = false ∧
    (c.ParseRespData "[0]").2 = false ∧
    (c.ParseRespData "").2 = false ∧
    (c.ParseRespData "\x7b\"errcode\":-0\x7d").2 = true ∧
    (c.ParseRespData "\x7b\"errcode\":1e-400\x7d").2 = true := by
  refine ⟨?_, by rfl, by rfl, by rfl, by rfl, by rfl, by rfl, by rfl, by rfl, by rfl, by rfl,
    by rfl, by rfl, by rfl, by rfl, by rfl⟩
  intro respData
  unfold Client.ParseRespData
  rcases hu : unmarshalMap respData with e | data
  · simp
  · rcases data with _ | m
    · simp [GoMap.get, errcodeIsOk]
    · simp only [Option.getD_some, Except.ok.injEq, Option.some.injEq, exists_and_left,
        exists_eq_left']
      rcases hg : GoMap.get m "errcode" with _ | v
      · simp [errcodeIsOk]
      · cases v with
        | float64 x => cases x <;> simp [errcodeIsOk, Float64.isZero]
        | int n => exact absurd hg (unmarshalMap_get_ne_int respData m "errcode" n hu)
        | string s => simp [errcodeIsOk]
        | _ => simp [errcodeIsOk]

/-! ## The classifier and the typed envelope -/

/-- An entry of the decoded map is the decoded value of the last field with that key. -/
theorem toInterfaceMap_get (fields : List (String × Json)) :
    ∀ k, GoMap.get (Json.toInterfaceMap fields) k = (lastField fields k).map Json.toInterface := by
  induction fields with
  | nil =>
    intro k
    simp [Json.toInterfaceMap, GoMap.get, lastField]
  | cons p rest ih =>
    obtain ⟨k', j⟩ := p
    intro k
    unfold Json.toInterfaceMap lastField
    by_cases hhas : GoMap.has (Json.toInterfaceMap rest) k' = true
    · rw [if_pos hhas, ih k]
      rcases hl : lastField rest k with _ | j'
      · have hne : k' ≠ k := by
          intro hk
          have h1 := ih k'
          simp only [GoMap.has, GoMap.get] at hhas h1
          rw [h1, hk, hl] at hhas
          simp at hhas
        simp [hne]
      · simp
    · rw [if_neg hhas]
      have hnone : lastField rest k' = none := by
        have h1 := ih k'
        simp only [GoMap.has, GoMap.get] at hhas h1
        rw [h1] at hhas
        rcases hl : lastField rest k' with _ | j'
        · rfl
        · rw [hl] at hhas
          simp at hhas
      unfold GoMap.get
      rw [List.lookup_cons]
      by_cases hk : k' = k
      · subst hk
        simp [hnone]
      · have hk' : (k == k') = false := by
          simp only [beq_eq_false_iff_ne, ne_eq]
          exact fun h => hk h.symm
        rw [hk']
        have h2 := ih k
        simp only [GoMap.get] at h2
        rw [h2]
        rcases hl : lastField rest k with _ | j' <;> simp [hk]

/-- A key selects the field `errcode` of `Resp` only if it matches `errcode` under case
folding. -/
theorem findField_errcode_fold (k : String)
    (h : findField Resp.fieldNames k = some "errcode") : foldName k = foldName "errcode" := by
  unfold findField Resp.fieldNames at h
  by_cases h1 : k = "errcode"
  · rw [h1]
  · by_cases h2 : k = "errmsg"
    · subst h2
      revert h
      decide
    · have e1 : ("errcode" = k) = False := eq_false (fun h => h1 h.symm)
      have e2 : ("errmsg" = k) = False := eq_false (fun h => h2 h.symm)
      simp only [List.find?, e1, e2, decide_False] at h
      by_cases h3 : foldName "errcode" = foldName k
      · exact h3.symm
      · simp only [h3, decide_False] at h
        by_cases h4 : foldName "errmsg" = foldName k
        · simp only [h4, decide_True] at h
          exact absurd h (by decide)
        · simp [h4] at h

/-- The key `errcode` selects the field `errcode` of `Resp`. -/
theorem findField_errcode : findField Resp.fieldNames "errcode" = some "errcode" := by
  decide

/-- Storing into a field other than `errcode` leaves `ErrCode` alone. -/
theorem setField_ErrCode (r : Resp) (name : String) (v : Json) (h : name ≠ "errcode") :
    (Resp.setField r name v).1.ErrCode = r.ErrCode := by
  unfold Resp.setField
  rw [if_neg h]
  split <;> rfl

/-- Fields none of which selects `errcode` leave `ErrCode` alone. -/
theorem decodeFields_ErrCode (rest : List (String × Json)) :
    ∀ (r : Resp) (e : Bool),
      (∀ p ∈ rest, findField Resp.fieldNames p.1 ≠ some "errcode") →
      (decodeFields Resp.fieldNames Resp.setField rest r e).1.ErrCode = r.ErrCode := by
  induction rest with
  | nil =>
    intro r e _
    rfl
  | cons p rest ih =>
    obtain ⟨k, v⟩ := p
    intro r e h
    have hk := h (k, v) (List.mem_cons_self _ _)
    have hrest : ∀ p ∈ rest, findField Resp.fieldNames p.1 ≠ some "errcode" :=
      fun p hp => h p (List.mem_cons_of_mem _ hp)
    unfold decodeFields
    rcases hf : findField Resp.fieldNames k with _ | name
    · exact ih r e hrest
    · simp only
      rw [ih _ _ hrest]
      apply setField_ErrCode
      intro hn
      rw [hn] at hf
      exact hk hf

/-- A saved decoding error stays. -/
theorem decodeFields_error {α : Type} (names : List String)
    (set : α → String → Json → α × Bool) (rest : List (String × Json)) :
    ∀ r : α, (decodeFields names set rest r true).2 = true := by
  induction rest with
  | nil =>
    intro r
    rfl
  | cons p rest ih =>
    obtain ⟨k, v⟩ := p
    intro r
    unfold decodeFields
    rcases findField names k with _ | name
    · exact ih r
    · simp only [Bool.true_or]
      exact ih _

/-- When decoding into `Resp` saves no error, every key that matches `errcode` is spelled
`errcode`, and the last `errcode` field is a number, then `ErrCode` is the integer that
number is written as. -/
theorem decodeFields_last_errcode (fields : List (String × Json)) (lit : String) :
    ∀ (r : Resp) (e : Bool),
      (∀ p ∈ fields, foldName p.1 = foldName "errcode" → p.1 = "errcode") →
      lastField fields "errcode" = some (.num lit) →
      (decodeFields Resp.fieldNames Resp.setField fields r e).2 = false →
      ∃ n, parseInt lit = some n ∧
        (decodeFields Resp.fieldNames Resp.setField fields r e).1.ErrCode = n := by
  induction fields with
  | nil =>
    intro r e _ hl
    simp [lastField] at hl
  | cons p rest ih =>
    obtain ⟨k, v⟩ := p
    intro r e hkeys hl herr
    have hrest : ∀ p ∈ rest, foldName p.1 = foldName "errcode" → p.1 = "errcode" :=
      fun p hp => hkeys p (List.mem_cons_of_mem _ hp)
    unfold lastField at hl
    rcases hlr : lastField rest "errcode" with _ | j'
    · rw [hlr] at hl
      simp only at hl
      by_cases hk : k = "errcode"
      · rw [if_pos hk] at hl
        have hv : v = .num lit := Option.some.inj hl
        subst hk hv
        have hno : ∀ p ∈ rest, findField Resp.fieldNames p.1 ≠ some "errcode" := by
          intro p hp hf
          have h1 := hrest p hp (findField_errcode_fold p.1 hf)
          have h2 : ∀ l : List (String × Json), lastField l "errcode" = none →
              ∀ q ∈ l, q.1 ≠ "errcode" := by
            intro l
            induction l with
            | nil =>
              intro _ q hq
              simp at hq
            | cons a l ihl =>
              obtain ⟨ak, av⟩ := a
              intro hnone q hq
              unfold lastField at hnone
              rcases hla : lastField l "errcode" with _ | x
              · rw [hla] at hnone
                simp only at hnone
                rcases List.mem_cons.1 hq with hq | hq
                · subst hq
                  intro hak
                  simp only [ite_eq_right_iff, imp_false, reduceCtorEq] at hnone
                  exact hnone hak
                · exact ihl hla q hq
              · rw [hla] at hnone
                simp at hnone
          exact h2 rest hlr p hp h1
        unfold decodeFields at herr ⊢
        rw [findField_errcode] at herr ⊢
        simp only at herr ⊢
        rcases hp : parseInt lit with _ | n
        · exfalso
          have hs : (Resp.setField r "errcode" (.num lit)).2 = true := by
            simp [Resp.setField, storeInt, hp]
          rw [hs, Bool.or_true, decodeFields_error] at herr
          exact Bool.noConfusion herr
        · refine ⟨n, rfl, ?_⟩
          rw [decodeFields_ErrCode rest _ _ hno]
          simp [Resp.setField, storeInt, hp]
      · rw [if_neg hk] at hl
        simp at hl
    · rw [hlr] at hl
      simp only at hl
      rw [Option.some.inj hl] at hlr
      unfold decodeFields at herr ⊢
      rcases hf : findField Resp.fieldNames k with _ | name
      · rw [hf] at herr
        exact ih r e hrest hlr herr
      · rw [hf] at herr
        exact ih _ _ hrest hlr herr

/-- A decimal digit is not the letter that introduces an exponent. -/
theorem isExpMark_of_isDigit (c : Char) (h : isDigit c = true) : isExpMark c = false := by
  rw [Bool.eq_false_iff]
  intro he
  simp only [isExpMark, Bool.or_eq_true, decide_eq_true_eq] at he
  rcases he with he | he
  · subst he
    exact absurd h (by decide)
  · subst he
    exact absurd h (by decide)

/-- The decimal of a literal that is a run of digits behind its sign. -/
theorem readFloat_of_digits (lit : String) (neg : Bool) (ds : List Char)
    (hs : splitSign lit.toList = (neg, ds)) (hd : ds.all isDigit = true) :
    readFloat lit = { neg := neg, mant := digitsVal ds, exp := 0 } := by
  have hall : ∀ c ∈ ds, isDigit c = true := List.all_eq_true.1 hd
  have h1 : ds.takeWhile (fun c => !isExpMark c) = ds :=
    List.takeWhile_eq_self_iff.2 (fun c hc => by simp [isExpMark_of_isDigit c (hall c hc)])
  have h2 : ds.dropWhile (fun c => !isExpMark c) = [] :=
    List.dropWhile_eq_nil_iff.2 (fun c hc => by simp [isExpMark_of_isDigit c (hall c hc)])
  have h3 : ds.takeWhile isDigit = ds := List.takeWhile_eq_self_iff.2 hall
  have h4 : ds.dropWhile isDigit = [] := List.dropWhile_eq_nil_iff.2 hall
  unfold readFloat
  rw [hs]
  simp only [h1, h2, h3, h4, List.drop_nil, splitSign, List.append_nil, List.length_nil]
  simp [expVal]

/-- A literal that `ParseInt` accepts and `ParseFloat` reads: the `float64` is zero exactly
when the integer is. -/
theorem parseInt_parseFloat_zero (lit : String) (n : Int) (x : Float64)
    (hi : parseInt lit = some n) (hf : parseFloat lit = some x) :
    x.isZero = true ↔ n = 0 := by
  unfold parseInt at hi
  rcases hs : splitSign lit.toList with ⟨neg, ds⟩
  rw [hs] at hi
  simp only at hi
  by_cases hbad : (ds.isEmpty || !ds.all isDigit) = true
  · rw [if_pos hbad] at hi
    exact absurd hi (by simp)
  · rw [if_neg hbad] at hi
    have hd : ds.all isDigit = true := by
      rcases hall : ds.all isDigit with _ | _
      · rw [hall] at hbad
        simp at hbad
      · rfl
    have hr := readFloat_of_digits lit neg ds hs hd
    unfold parseFloat at hf
    rw [hr] at hf
    simp only [Decimal.roundsToZero, lt_self_iff_false, decide_False, Bool.false_and,
      Bool.or_false, decide_eq_true_eq] at hf
    have hn : n = 0 ↔ digitsVal ds = 0 := by
      cases neg
      · simp only [Bool.false_eq_true, if_false] at hi
        split at hi
        · rw [← Option.some.inj hi]
          omega
        · exact absurd hi (by simp)
      · simp only [if_true] at hi
        split at hi
        · rw [← Option.some.inj hi]
          omega
        · exact absurd hi (by simp)
    rw [hn]
    split at hf
    · exact absurd hf (by simp)
    · split at hf
      · rename_i hz
        rw [← Option.some.inj hf]
        simp [Float64.isZero, hz]
      · rename_i hz
        rw [← Option.some.inj hf]
        simp [Float64.isZero, hz]

/-- Claim C10, as amended.  For every body that `json.Unmarshal` decodes without error both
into the generic map and into the typed envelope `Resp`, whose `errcode` entry is a number,
and in which every key that matches `errcode` without regard to case is spelled `errcode`:
`ParseRespData` reports success exactly when the typed envelope has `ErrCode == 0`. -/
theorem classifier_agrees_on_integer_errcode (c : Client) (body : String)
    (fields : List (String × Json)) (m : GoMap) (x : Float64)
    (hparse : parseJson body = some (.obj fields))
    (hkeys : ∀ p ∈ fields, foldName p.1 = foldName "errcode" → p.1 = "errcode")
    (hgen : unmarshalMap body = .ok (some m))
    (hnum : GoMap.get m "errcode" = some (.float64 x))
    (htyped : (unmarshalResp body {}).2 = none) :
    (c.ParseRespData body).2 = true ↔ (unmarshalResp body {}).1.ErrCode = 0 := by
  have hm : m = Json.toInterfaceMap fields := by
    unfold unmarshalMap at hgen
    rw [hparse] at hgen
    simp only at hgen
    split at hgen
    · exact (Option.some.inj (Except.ok.inj hgen)).symm
    · exact absurd hgen (by simp)
  rw [hm, toInterfaceMap_get] at hnum
  rcases hl : lastField fields "errcode" with _ | j
  · rw [hl] at hnum
    exact absurd hnum (by simp)
  · rw [hl] at hnum
    have hj : ∃ lit, j = .num lit ∧ parseFloat lit = some x := by
      cases j with
      | num lit =>
        refine ⟨lit, rfl, ?_⟩
        simp only [Option.map_some', Json.toInterface, Option.some.injEq] at hnum
        rcases hp : parseFloat lit with _ | y
        · rw [hp] at hnum
          exact absurd hnum (by simp)
        · rw [hp] at hnum
          simp only [GoValue.float64.injEq] at hnum
          rw [hnum]
      | _ => simp [Json.toInterface] at hnum
    obtain ⟨lit, hjl, hpf⟩ := hj
    subst hjl
    have herr : (decodeFields Resp.fieldNames Resp.setField fields {} false).2 = false := by
      unfold unmarshalResp unmarshalStruct at htyped
      rw [hparse] at htyped
      simp only at htyped
      rcases hb : (decodeFields Resp.fieldNames Resp.setField fields {} false).2 with _ | _
      · rfl
      · rw [hb] at htyped
        exact absurd htyped (by simp)
    obtain ⟨n, hpi, hcode⟩ := decodeFields_last_errcode fields lit {} false hkeys hl herr
    have hE : (unmarshalResp body {}).1.ErrCode = n := by
      unfold unmarshalResp unmarshalStruct
      rw [hparse]
      exact hcode
    have hP : (c.ParseRespData body).2 = x.isZero := by
      unfold Client.ParseRespData
      rw [hgen, hm]
      simp only [Option.getD_some]
      rw [toInterfaceMap_get, hl]
      simp [Json.toInterface, hpf, errcodeIsOk]
    rw [hP, hE]
    exact parseInt_parseFloat_zero lit n x hpi hpf

set_option exponentiation.threshold 2000 in
/-- Claim C10 as amended, at concrete inputs: errcode 0 and errcode 40014, both written as
integers. -/
theorem classifier_agrees_on_integer_errcode_witness :
    ((testClient.ParseRespData okBody).2 = true ↔ (unmarshalResp okBody {}).1.ErrCode = 0) ∧
      ((testClient.ParseRespData invalidTokenBody).2 = true ↔
        (unmarshalResp invalidTokenBody {}).1.ErrCode = 0) :=
  ⟨classifier_agrees_on_integer_errcode testClient okBody
      [("errcode", .num "0"), ("errmsg", .str "ok")]
      [("errcode", .float64 (.zero false)), ("errmsg", .string "ok")] (.zero false)
      (by rfl) (by decide) (by rfl) (by rfl) (by rfl),
    classifier_agrees_on_integer_errcode testClient invalidTokenBody
      [("errcode", .num "40014"), ("errmsg", .str "invalid access_token")]
      [("errcode", .float64 (.nonzero { neg := false, mant := 40014, exp := 0 })),
        ("errmsg", .string "invalid access_token")]
      (.nonzero { neg := false, mant := 40014, exp := 0 })
      (by rfl) (by decide) (by rfl) (by rfl) (by rfl)⟩

set_option exponentiation.threshold 2000 in
/-- Claim C10 as stated fails.  For errcode written `"0"` or `0.0` the classifier reports
success while decoding into `Resp` fails; for a body without `errcode` the classifier reports
failure while the typed envelope decodes with `ErrCode == 0`. -/
theorem classifier_agrees_counterexample :
    ((testClient.ParseRespData "\x7b\"errcode\":\"0\"\x7d").2 = true ∧
        (unmarshalResp "\x7b\"errcode\":\"0\"\x7d" {}).2 = some typeError) ∧
      ((testClient.ParseRespData "\x7b\"errcode\":0.0\x7d").2 = true ∧
        (unmarshalResp "\x7b\"errcode\":0.0\x7d" {}).2 = some typeError) ∧
      ((testClient.ParseRespData "\x7b\"errmsg\":\"ok\"\x7d").2 = false ∧
        unmarshalResp "\x7b\"errmsg\":\"ok\"\x7d" {} = ({ ErrCode := 0, ErrMsg := "ok" }, none)) :=
  ⟨⟨by rfl, by rfl⟩, ⟨by rfl, by rfl⟩, ⟨by rfl, by rfl⟩⟩

/-! ## The message body -/

/-- The request body of `Message` is `messageWire`. -/
theorem marshalBody_messageData (c : Client) (toUser content : String) :
    marshalBody (some (c.messageData toUser content))
      = .ok (some (c.messageWire toUser content)) := by
  have h : marshalBody (some (c.messageData toUser content))
      = .ok (some (objectText
          [quoteString "agentid" ++ ":" ++ quoteString c.AgentID,
           quoteString "msgtype" ++ ":" ++ quoteString "text",
           quoteString "text" ++ ":" ++
             objectText [quoteString "content" ++ ":" ++ quoteString content],
           quoteString "touser" ++ ":" ++ quoteString toUser])) := rfl
  have q1 : (quoteString "agentid").data = ("\"agentid\"" : String).data := rfl
  have q2 : (quoteString "msgtype").data = ("\"msgtype\"" : String).data := rfl
  have q3 : (quoteString "text").data = ("\"text\"" : String).data := rfl
  have q4 : (quoteString "content").data = ("\"content\"" : String).data := rfl
  have q5 : (quoteString "touser").data = ("\"touser\"" : String).data := rfl
  rw [h]
  congr 2
  apply String.ext
  simp [objectText, String.intercalate, String.intercalate.go, Client.messageWire,
    List.append_assoc, q1, q2, q3, q4, q5]


/-- The lexical items of `messageWire`. -/
theorem lex_messageWire (c : Client) (toUser content : String) :
    lex (c.messageWire toUser content).toList
      = some [.beginObj, .scalar (.str "agentid"), .colon, .scalar (.str c.AgentID), .comma,
          .scalar (.str "msgtype"), .colon, .scalar (.str "text"), .comma,
          .scalar (.str "text"), .colon, .beginObj, .scalar (.str "content"), .colon,
          .scalar (.str content), .endObj, .comma,
          .scalar (.str "touser"), .colon, .scalar (.str toUser), .endObj] := by
  have hw : (c.messageWire toUser content).toList
      = ("\x7b\"agentid\":" : String).data ++ ((quoteString c.AgentID).toList ++
          ((",\"msgtype\":\"text\",\"text\":\x7b\"content\":" : String).data ++
            ((quoteString content).toList ++
              (("\x7d,\"touser\":" : String).data ++
                ((quoteString toUser).toList ++ ("\x7d" : String).data))))) := by
    simp [Client.messageWire, String.toList, List.append_assoc]
  have s1 : ∀ (r : List Char), lexRun .start [] (("\x7b\"agentid\":" : String).data ++ r)
      = lexRun .start [.colon, .scalar (.str "agentid"), .beginObj] r := fun _ => rfl
  have s2 : ∀ (toks : List Token) (r : List Char),
      lexRun .start toks ((",\"msgtype\":\"text\",\"text\":\x7b\"content\":" : String).data ++ r)
        = lexRun .start (.colon :: .scalar (.str "content") :: .beginObj :: .colon ::
            .scalar (.str "text") :: .comma :: .scalar (.str "text") :: .colon ::
            .scalar (.str "msgtype") :: .comma :: toks) r := fun _ _ => rfl
  have s3 : ∀ (toks : List Token) (r : List Char),
      lexRun .start toks (("\x7d,\"touser\":" : String).data ++ r)
        = lexRun .start (.colon :: .scalar (.str "touser") :: .comma :: .endObj :: toks) r :=
    fun _ _ => rfl
  have s4 : ∀ (toks : List Token),
      lexRun .start toks ("\x7d" : String).data = some (.start, .endObj :: toks) :=
    fun _ => rfl
  unfold lex
  rw [hw, s1, lexRun_quoteString, s2, lexRun_quoteString, s3, lexRun_quoteString, s4]
  rfl

/-- Decoding `messageWire` gives back the four entries of the map `Message` builds. -/
theorem unmarshalMap_messageWire (c : Client) (toUser content : String) :
    unmarshalMap (c.messageWire toUser content)
      = .ok (some [("agentid", .string c.AgentID), ("msgtype", .string "text"),
          ("text", .map [("content", .string content)]), ("touser", .string toUser)]) := by
  have hp : parseJson (c.messageWire toUser content)
      = some (.obj [("agentid", .str c.AgentID), ("msgtype", .str "text"),
          ("text", .obj [("content", .str content)]), ("touser", .str toUser)]) := by
    unfold parseJson
    rw [lex_messageWire]
    rfl
  unfold unmarshalMap
  rw [hp]
  rfl

/-- Claim C6.  The map `Message` hands to `request` has exactly the four keys `touser`,
`msgtype`, `agentid` and `text`, with the values `toUser`, `"text"`, the agent id of the
client, and a map with the one key `content`; the body `request` encodes from it decodes to
exactly these four entries; and the request that reaches the HTTP stack is a `POST` to
`message/send` under the host with that body, so that a 2xx answer to it is what `Message`
decodes. -/
theorem message_posts_text_body (c : Client) (toUser content : String) :
    c.messageData toUser content
        = [("touser", .string toUser), ("msgtype", .string "text"),
            ("agentid", .string c.AgentID), ("text", .map [("content", .string content)])] ∧
    marshalBody (some (c.messageData toUser content))
        = .ok (some (c.messageWire toUser content)) ∧
    unmarshalMap (c.messageWire toUser content)
        = .ok (some [("agentid", .string c.AgentID), ("msgtype", .string "text"),
            ("text", .map [("content", .string content)]), ("touser", .string toUser)]) ∧
    (∀ (t : Transport) (tok : String) (S : Int) (B : String),
      c.AccessToken t = (tok, none) →
      t { method := "POST"
          url := "https://qyapi.weixin.qq.com/cgi-bin/message/send"
          header := [("Content-type", "application/json"), ("Connection", "Close"),
            ("Accept", "*/*")]
          params := [("access_token", tok)]
          body := some (c.messageWire toUser content) } = .ok (S, B) →
      200 ≤ S → S ≤ 299 →
      c.Message t toUser content =
        ((unmarshalResp B {}).1,
          match (unmarshalResp B {}).2 with
          | some _ => some ⟨"message failed"⟩
          | none => none)) := by
  refine ⟨rfl, marshalBody_messageData c toUser content,
    unmarshalMap_messageWire c toUser content, ?_⟩
  intro t tok S B htok hresp hlo hhi
  have hreq : c.request t "message/send" "POST" (some (c.messageData toUser content))
      [("access_token", tok)] = .ok B := by
    rw [request_of_answer c t "message/send" "POST" _ _ _ S B
      (marshalBody_messageData c toUser content) hresp, if_pos ⟨hlo, hhi⟩]
  unfold Client.Message
  simp only [htok, hreq]
  rcases hd : unmarshalResp B {} with ⟨r, _ | e⟩ <;> simp

/-- Claim C6, the scenario of the specification: the message `hello` to `alice|bob` from the
client with agent id `A`, against a server that accepts it. -/
theorem message_posts_text_body_witness :
    testClient.messageWire "alice|bob" "hello" = aliceBobWire ∧
      testClient.Message (stubTransport (.ok (200, okTokenBody)) (.ok (200, okBody)))
        "alice|bob" "hello" = ({ ErrCode := 0, ErrMsg := "ok" }, none) :=
  ⟨by decide,
    ((message_posts_text_body testClient "alice|bob" "hello").2.2.2
      (stubTransport (.ok (200, okTokenBody)) (.ok (200, okBody))) "TOK" 200 okBody
      (by rfl) (by rfl) (by decide) (by decide)).trans (by rfl)⟩

end Wechat
